import Mathlib

/-!
Verification development for the bitespeed identity-reconciliation service.

The repository contains several near-duplicate implementations of the
`POST /identify` endpoint.  The main one is the `identify` handler in
`src/routes/identify.js` (Prisma-backed); further variants live in the
other route files: an in-memory variant (`part_001`), a variant that only
follows the first match's cluster (`part_002`), a transaction variant with
an exact-pair check (`part_006`), and a second variant inside
`identify.js` itself.

We shallowly embed the store (the Prisma `contact` table) as a list of
rows plus an id counter and a clock, and translate each implementation's
logic into executable Lean functions.  JavaScript truthiness of strings
(null / undefined / empty string are all falsy) is modelled by `truthy`;
`Option.none` stands for both SQL NULL and JS undefined.
-/

/-- Link precedence enum of the `Contact` model (`primary` / `secondary`). -/
inductive Precedence where
  | primary
  | secondary
deriving DecidableEq

/-- Is this precedence `primary`?  Models `linkPrecedence === 'primary'`. -/
def Precedence.isPrimary : Precedence → Bool
  | .primary => true
  | .secondary => false

/-- Is this precedence `secondary`?  Models `linkPrecedence === 'secondary'`. -/
def Precedence.isSecondary : Precedence → Bool
  | .primary => false
  | .secondary => true

/-- A row of the `Contact` table.  Timestamps are modelled as naturals
(the code only ever compares `createdAt` with `<`). -/
structure Contact where
  id : Nat
  email : Option String
  phoneNumber : Option String
  linkPrecedence : Precedence
  linkedId : Option Nat
  createdAt : Nat
  updatedAt : Nat
  deletedAt : Option Nat
deriving DecidableEq

/-- The store: the contact table, the autoincrement counter for `id`,
and a clock supplying creation timestamps. -/
structure Store where
  contacts : List Contact
  nextId : Nat
  now : Nat
deriving DecidableEq

/-- The consolidated view built by the handler (the `contact` object of the
response body). -/
structure Response where
  primaryContactId : Nat
  emails : List String
  phoneNumbers : List String
  secondaryContactIds : List Nat
deriving DecidableEq

/-- JavaScript truthiness for an optional string: null, undefined and the
empty string are falsy. -/
def truthy : Option String → Bool
  | none => false
  | some s => s != ""

/-- Keep an optional string only when truthy; models one step of
`array.filter(Boolean)`. -/
def truthyVal (o : Option String) : Option String :=
  if truthy o then o else none

/-- Models `[...].filter(Boolean)` on an array of nullable strings. -/
def truthyList (l : List (Option String)) : List String :=
  l.filterMap truthyVal

/-- First-occurrence deduplication with an accumulator of already seen
values; models iterating a JS `Set` built from a list (insertion order,
first occurrence kept). -/
def dedupAux [DecidableEq α] (seen : List α) : List α → List α
  | [] => []
  | x :: xs => if seen.contains x then dedupAux seen xs else x :: dedupAux (x :: seen) xs

/-- Models `Array.from(new Set(l))`: removes duplicates keeping the first
occurrence of each element. -/
def dedupKeepFirst [DecidableEq α] (l : List α) : List α :=
  dedupAux [] l

/-! ### The match step of the main `identify` handler (identify.js lines 26-35)

```js
const conditions = [];
if (email) conditions.push({ email });
if (phoneNumber) conditions.push({ phoneNumber });
const matches = await prisma.contact.findMany({ where: { OR: conditions, deletedAt: null } });
```

A condition is pushed only for a truthy field; a Prisma `{ email: e }`
condition with a string `e` matches only rows whose column equals `e`
(NULL columns never match a string); an empty `OR` list matches nothing. -/

/-- The row predicate of the match query of the main handler. -/
def matchFilter (email phoneNumber : Option String) (c : Contact) : Bool :=
  c.deletedAt == none &&
    ((truthy email && c.email == email) || (truthy phoneNumber && c.phoneNumber == phoneNumber))

/-- The match set (`matches`) of the main handler. -/
def identifyMatches (s : Store) (email phoneNumber : Option String) : List Contact :=
  s.contacts.filter (matchFilter email phoneNumber)

/-- Append an id to the accumulator unless already present; models
`Set.add` (only membership of the resulting set is ever used). -/
def insertIfNew (x : Nat) (acc : List Nat) : List Nat :=
  if acc.contains x then acc else acc ++ [x]

/-- One step of building `primaryContactIds` (identify.js lines 59-66):
a primary match contributes its own id, a secondary match contributes its
`linkedId` when that is truthy (JS `if (match.linkedId)`; the number 0 and
null are both falsy). -/
def addCandidate (acc : List Nat) (m : Contact) : List Nat :=
  if m.linkPrecedence.isPrimary then insertIfNew m.id acc
  else
    match m.linkedId with
    | some l => if 0 < l then insertIfNew l acc else acc
    | none => acc

/-- The candidate primary ids collected from the match set. -/
def candidateIds (matchSet : List Contact) : List Nat :=
  matchSet.foldl addCandidate []

/-- Models Prisma `linkedId: { in: ids }` (a NULL `linkedId` matches no list). -/
def linkedIn (ids : List Nat) (c : Contact) : Bool :=
  match c.linkedId with
  | some l => ids.contains l
  | none => false

/-- One comparison step of the oldest-primary scan:
`if (new Date(contact.createdAt) < new Date(oldestPrimary.createdAt))`. -/
def pickOlder (acc c : Contact) : Contact :=
  if c.createdAt < acc.createdAt then c else acc

/-- The oldest primary selection (identify.js lines 87-93): start from the
first fetched row and keep any row with strictly earlier `createdAt`;
`none` models the crash on an empty fetch (caught as a 500). -/
def oldestPrimaryOf : List Contact → Option Contact
  | [] => none
  | h :: t => some ((h :: t).foldl pickOlder h)

/-- The per-row effect of one iteration of the merge loop (identify.js
lines 97-122) for the losing primary id `pid` and canonical id `o`:
first `update({ where: { id: pid } })` demotes the row with that id, then
`updateMany({ where: { linkedId: pid, linkPrecedence: 'secondary',
deletedAt: null } })` repoints its secondaries at `o`.  Both store
operations act row-by-row, so their composition is a per-row function. -/
def demoteOne (o pid now_ : Nat) (c : Contact) : Contact :=
  let c1 := if c.id == pid then
    { c with linkPrecedence := .secondary, linkedId := some o, updatedAt := now_ } else c
  if c1.linkedId == some pid && c1.linkPrecedence.isSecondary && c1.deletedAt == none then
    { c1 with linkedId := some o, updatedAt := now_ } else c1

/-- The per-row effect of the whole merge loop: iterate over the fetched
primaries, skipping the canonical one (`if (primary.id !== oldestPrimary.id)`). -/
def applyAll (o now_ : Nat) (ps : List Contact) (c : Contact) : Contact :=
  ps.foldl (fun acc p => if p.id == o then acc else demoteOne o p.id now_ acc) c

/-- The merge loop applied to the whole table. -/
def mergeAll (o now_ : Nat) (ps contacts : List Contact) : List Contact :=
  contacts.map (applyAll o now_ ps)

/-- The candidate primary ids of a request (identify.js lines 58-66). -/
def candOf (s : Store) (email phoneNumber : Option String) : List Nat :=
  candidateIds (identifyMatches s email phoneNumber)

/-- `primaryContacts` (identify.js lines 69-74): the non-deleted rows
whose id is among the candidates. -/
def primsOf (s : Store) (email phoneNumber : Option String) : List Contact :=
  s.contacts.filter (fun c => (candOf s email phoneNumber).contains c.id && c.deletedAt == none)

/-- `secondaryContacts` (identify.js lines 76-82): the non-deleted
secondaries linked into any candidate cluster. -/
def secsOf (s : Store) (email phoneNumber : Option String) : List Contact :=
  s.contacts.filter (fun c =>
    linkedIn (candOf s email phoneNumber) c && c.linkPrecedence.isSecondary && c.deletedAt == none)

/-- `allEmails` of the novelty check (identify.js line 125). -/
def clusterEmailsOf (s : Store) (email phoneNumber : Option String) : List String :=
  truthyList ((primsOf s email phoneNumber).map (·.email) ++
    (secsOf s email phoneNumber).map (·.email))

/-- `allPhoneNumbers` of the novelty check (identify.js line 126). -/
def clusterPhonesOf (s : Store) (email phoneNumber : Option String) : List String :=
  truthyList ((primsOf s email phoneNumber).map (·.phoneNumber) ++
    (secsOf s email phoneNumber).map (·.phoneNumber))

/-- The novelty decision of the main handler (identify.js lines 128-131):
a new secondary row is created unless `emailExists && phoneExists`. -/
def createdFlag (s : Store) (email phoneNumber : Option String) : Bool :=
  let emailExists := truthy email &&
    (clusterEmailsOf s email phoneNumber).contains (email.getD (""))
  let phoneExists := truthy phoneNumber &&
    (clusterPhonesOf s email phoneNumber).contains (phoneNumber.getD (""))
  !(emailExists && phoneExists)

/-- The contact table after the merge transaction and the optional
creation of the new secondary row (identify.js lines 96-142). -/
def contactsAfter (s : Store) (email phoneNumber : Option String) (oldest : Contact) :
    List Contact :=
  let merged := mergeAll oldest.id s.now (primsOf s email phoneNumber) s.contacts
  if createdFlag s email phoneNumber then
    merged ++ [⟨s.nextId, email, phoneNumber, .secondary, some oldest.id, s.now, s.now, none⟩]
  else merged

/-- `finalSecondaries` (identify.js lines 149-155). -/
def finalSecondariesOf (contacts' : List Contact) (oldestId : Nat) : List Contact :=
  contacts'.filter (fun c =>
    c.linkedId == some oldestId && c.linkPrecedence.isSecondary && c.deletedAt == none)

/-- The response of the match branch (identify.js lines 157-168). -/
def buildResponse (oldestId : Nat) (finalPrimary : Contact) (finalSecondaries : List Contact) :
    Response :=
  ⟨oldestId,
   dedupKeepFirst (truthyList (finalPrimary.email :: finalSecondaries.map (·.email))),
   dedupKeepFirst (truthyList (finalPrimary.phoneNumber :: finalSecondaries.map (·.phoneNumber))),
   List.insertionSort (· ≤ ·) (finalSecondaries.map (·.id))⟩

/-- The core of the main `identify` handler (identify.js lines 26-169),
from the match query to the response object; `none` models an uncaught
runtime error inside the handler (surfaced as a 500). -/
def identifyCore (s : Store) (email phoneNumber : Option String) :
    Option (Store × Response) :=
  if (identifyMatches s email phoneNumber).isEmpty then
    let newContact : Contact :=
      ⟨s.nextId, email, phoneNumber, .primary, none, s.now, s.now, none⟩
    some (⟨s.contacts ++ [newContact], s.nextId + 1, s.now + 1⟩,
      ⟨newContact.id, truthyList [newContact.email], truthyList [newContact.phoneNumber], []⟩)
  else
    match oldestPrimaryOf (primsOf s email phoneNumber) with
    | none => none
    | some oldest =>
      let contacts' := contactsAfter s email phoneNumber oldest
      match contacts'.find? (fun c => c.id == oldest.id) with
      | none => none
      | some finalPrimary =>
        some (⟨contacts',
               if createdFlag s email phoneNumber then s.nextId + 1 else s.nextId,
               if createdFlag s email phoneNumber then s.now + 1 else s.now⟩,
          buildResponse oldest.id finalPrimary (finalSecondariesOf contacts' oldest.id))

/-! ### Input validation of the main handler (identify.js lines 4-23) -/

/-- A character allowed by the character class of the email regex:
anything that is not whitespace and not `@`.  (Lean's `Char.isWhitespace`
stands in for the JS `\s` class.) -/
def emailChar (c : Char) : Bool :=
  !c.isWhitespace && c != '@'

/-- Executable model of `/^[^\s@]+@[^\s@]+\.[^\s@]+$/`: a nonempty local
part, exactly one `@`, and a domain that is nonempty and contains a dot
with nonempty text on both sides (i.e. a dot in its interior). -/
def emailRegexTest (s : String) : Bool :=
  let cs := s.toList
  let localPart := cs.takeWhile (fun c => c != '@')
  match cs.dropWhile (fun c => c != '@') with
  | [] => false
  | _ :: domain =>
    !localPart.isEmpty && localPart.all emailChar &&
    !domain.isEmpty && domain.all emailChar &&
    ((domain.drop 1).dropLast.contains ('.'))

/-- Executable model of `/^\+?\d+$/`: an optional leading `+` followed by
one or more digits. -/
def phoneRegexTest (s : String) : Bool :=
  let cs := s.toList
  let digits := match cs with
    | c :: rest => if c == '+' then rest else cs
    | [] => []
  !digits.isEmpty && digits.all Char.isDigit

/-- The validation block of the main handler (identify.js lines 11-23):
returns the 400 error message when the request is rejected, `none` when
resolution proceeds. -/
def validateV1 (email phoneNumber : Option String) : Option String :=
  if !truthy email && !truthy phoneNumber then
    some ("At least one of email or phoneNumber must be provided")
  else if truthy email && !emailRegexTest (email.getD ("")) then
    some ("Invalid email format")
  else if truthy phoneNumber && !phoneRegexTest (phoneNumber.getD ("")) then
    some ("Phone number must be numeric (optional '+' allowed)")
  else if truthy phoneNumber && (phoneNumber.getD ("")).length > 20 then
    some ("Phone number must not exceed 20 characters")
  else
    none

/-- A JSON value of the shapes used in the response objects. -/
inductive JValue where
  | jnum (n : Nat)
  | jarrS (xs : List String)
  | jarrN (xs : List Nat)
deriving DecidableEq

/-- The serialized `contact` object of the main handler (identify.js lines
162-169): key names as written in the source. -/
def contactJsonV1 (r : Response) : List (String × JValue) :=
  [("primaryContactId", .jnum r.primaryContactId),
   ("emails", .jarrS r.emails),
   ("phoneNumbers", .jarrS r.phoneNumbers),
   ("secondaryContactIds", .jarrN r.secondaryContactIds)]

/-- Outcome of one HTTP request to the route. -/
inductive HttpOut where
  | badRequest (msg : String)
  | success (contact : List (String × JValue))
  | serverError
deriving DecidableEq

/-- The whole main handler: validation (rejecting before any store
access), then the core, then serialization; an internal error leaves the
transaction rolled back (store unchanged). -/
def identifyTotal (s : Store) (email phoneNumber : Option String) : Store × HttpOut :=
  match validateV1 email phoneNumber with
  | some msg => (s, .badRequest msg)
  | none =>
    match identifyCore s email phoneNumber with
    | some (s', r) => (s', .success (contactJsonV1 r))
    | none => (s, .serverError)

/-! ### The in-memory variant (`part_001`) -/

/-- The match predicate of the in-memory variant (no soft-delete filter:
its rows never carry `deletedAt`). -/
def memMatchFilter (email phoneNumber : Option String) (c : Contact) : Bool :=
  (truthy email && c.email == email) || (truthy phoneNumber && c.phoneNumber == phoneNumber)

/-- `matches.reduce((oldest, current) => ...)`: the first element seeds the
accumulator and the rest are folded; `none` models the reduce crash on an
empty array. -/
def oldestOfMatches : List Contact → Option Contact
  | [] => none
  | h :: t => some (t.foldl (fun acc c => if c.createdAt < acc.createdAt then c else acc) h)

/-- The response object of the in-memory variant (part_001 lines 76-89);
note the misspelled first key, exactly as in the source. -/
def memContactJson (primary : Contact) (secondaryContacts : List Contact) :
    List (String × JValue) :=
  [("primaryContatctId", .jnum primary.id),
   ("emails", .jarrS (dedupKeepFirst
      (truthyList (primary.email :: secondaryContacts.map (·.email))))),
   ("phoneNumbers", .jarrS (dedupKeepFirst
      (truthyList (primary.phoneNumber :: secondaryContacts.map (·.phoneNumber))))),
   ("secondaryContactIds", .jarrN (secondaryContacts.map (·.id)))]

/-- The in-memory `router.post('/')` variant (part_001). -/
def routerMemPost (st : Store) (email phoneNumber : Option String) : Store × HttpOut :=
  if !truthy email && !truthy phoneNumber then
    (st, .badRequest ("At least one contact info required"))
  else
    let ms := st.contacts.filter (memMatchFilter email phoneNumber)
    if ms.isEmpty then
      let newContact : Contact :=
        ⟨st.nextId, email, phoneNumber, .primary, none, st.now, st.now, none⟩
      (⟨st.contacts ++ [newContact], st.nextId + 1, st.now + 1⟩,
        .success
          [("primaryContatctId", .jnum newContact.id),
           ("emails", .jarrS (truthyList [newContact.email])),
           ("phoneNumbers", .jarrS (truthyList [newContact.phoneNumber])),
           ("secondaryContactIds", .jarrN [])])
    else
      match oldestOfMatches ms with
      | none => (st, .serverError)
      | some primary =>
        let hasNewInfo :=
          (truthy email && !(st.contacts.any (fun c => c.email == email))) ||
          (truthy phoneNumber && !(st.contacts.any (fun c => c.phoneNumber == phoneNumber)))
        let contacts' := if hasNewInfo then
          st.contacts ++
            [⟨st.nextId, email, phoneNumber, .secondary, some primary.id, st.now, st.now, none⟩]
          else st.contacts
        let allLinked := contacts'.filter (fun c =>
          c.id == primary.id || c.linkedId == some primary.id)
        let secondaryContacts := allLinked.filter (fun c => c.id != primary.id)
        (⟨contacts', if hasNewInfo then st.nextId + 1 else st.nextId,
          if hasNewInfo then st.now + 1 else st.now⟩,
         .success (memContactJson primary secondaryContacts))

/-! ### The match step of the second `identify.js` variant (lines 198-208)
and of `part_002` (lines 31-40)

```js
where: { OR: [ { email: email || null }, { phoneNumber: phoneNumber || null } ], deletedAt: null }
```

Both conditions are always present; a falsy field degrades to a
`{ column: null }` condition, which Prisma satisfies on rows whose column
IS NULL. -/

/-- `x || null`: a falsy value becomes null. -/
def orNull (x : Option String) : Option String :=
  if truthy x then x else none

/-- The row predicate of the second variant's match query. -/
def v2MatchFilter (email phoneNumber : Option String) (c : Contact) : Bool :=
  c.deletedAt == none && (c.email == orNull email || c.phoneNumber == orNull phoneNumber)

/-- The match set of the second variant. -/
def v2Matches (s : Store) (email phoneNumber : Option String) : List Contact :=
  s.contacts.filter (v2MatchFilter email phoneNumber)

/-! ### The novelty decision of `part_006` (lines 120-140) -/

/-- Does the `part_006` variant create a new secondary contact, given the
current cluster (`allRelatedContacts`) and the fragment?  It first checks
for a verbatim (email, phoneNumber) pair and then for per-field novelty.
(Null and undefined request fields are both modelled as `none`; the
JS distinction between them cannot change this boolean's value.) -/
def p6CreatesSecondary (related : List Contact) (email phoneStr : Option String) : Bool :=
  let exactMatchExists := related.any (fun c => c.email == email && c.phoneNumber == phoneStr)
  if exactMatchExists then false
  else
    let hasNewEmail := truthy email && !(related.any (fun c => c.email == email))
    let hasNewPhone := truthy phoneStr && !(related.any (fun c => c.phoneNumber == phoneStr))
    hasNewEmail || hasNewPhone

/-! ### Error handling of the route (identify.js lines 171-174, part_006
lines 176-179)

```js
} catch (error) { console.error(...); return res.status(500).json({ error: 'Internal server error' }); }
```

The store may report a serialization or constraint conflict when the
transaction commits; the oracle `attempts k` gives the outcome the store
would report for the k-th attempt of the whole Resolve sequence. -/

/-- Outcome the store reports for one attempt of the transaction. -/
inductive TxOutcome where
  | committed (r : Response)
  | conflict
  | fatal
deriving DecidableEq

/-- What the route hands back to the caller. -/
inductive TxResult where
  | success (r : Response)
  | internalError
deriving DecidableEq

/-- The route's actual error handling: a single `try { ... } catch` around
one transaction attempt; every store error, conflict or not, is surfaced
as a 500 at once.  Only attempt 0 is ever consulted. -/
def identifySingleAttempt (attempts : Nat → TxOutcome) : TxResult :=
  match attempts 0 with
  | .committed r => .success r
  | .conflict => .internalError
  | .fatal => .internalError

/-- Modelled from the spec: the resolver "must retry the whole Resolve
sequence from step 1, bounded by a small retry count, before surfacing
failure" on a serialization/constraint conflict.  No such retry exists in
the repository's code; this definition follows the spec's words so the
two behaviours can be compared. -/
def resolveWithRetrySpec : Nat → (Nat → TxOutcome) → Nat → TxResult
  | 0, attempts, k =>
    match attempts k with
    | .committed r => .success r
    | .conflict => .internalError
    | .fatal => .internalError
  | budget + 1, attempts, k =>
    match attempts k with
    | .committed r => .success r
    | .conflict => resolveWithRetrySpec budget attempts (k + 1)
    | .fatal => .internalError

/-! ### Well-formedness and reachability -/

/-- The store invariants of the data model: unique positive ids below the
autoincrement counter, no soft-deleted rows (this subsystem never sets
`deletedAt`), primaries carry no `linkedId`, and every secondary points at
an existing primary row. -/
def WFStore (s : Store) : Prop :=
  (s.contacts.map (·.id)).Nodup ∧
  0 < s.nextId ∧
  (∀ c ∈ s.contacts, 0 < c.id ∧ c.id < s.nextId) ∧
  (∀ c ∈ s.contacts, c.deletedAt = none) ∧
  (∀ c ∈ s.contacts, c.linkPrecedence = .primary → c.linkedId = none) ∧
  (∀ c ∈ s.contacts, c.linkPrecedence = .secondary →
    ∃ d ∈ s.contacts, c.linkedId = some d.id ∧ d.linkPrecedence = .primary)

/-- Store states reachable from the empty store by successful Resolve
operations of the main handler. -/
inductive Reachable : Store → Prop where
  | init : Reachable ⟨[], 1, 0⟩
  | step {s s' : Store} {email phoneNumber : Option String} {r : Response} :
      Reachable s → identifyCore s email phoneNumber = some (s', r) → Reachable s'

/-! ## Helper lemmas -/

theorem Precedence.isPrimary_iff {p : Precedence} : p.isPrimary = true ↔ p = .primary := by
  cases p <;> simp [Precedence.isPrimary]

theorem Precedence.isSecondary_iff {p : Precedence} : p.isSecondary = true ↔ p = .secondary := by
  cases p <;> simp [Precedence.isSecondary]

theorem Precedence.eq_secondary_of_ne {p : Precedence} (h : p ≠ .primary) : p = .secondary := by
  cases p
  · exact absurd rfl h
  · rfl

theorem truthy_iff {o : Option String} : truthy o = true ↔ ∃ v, o = some v ∧ v ≠ "" := by
  cases o with
  | none => simp [truthy]
  | some s => simp [truthy]

theorem truthy_some {v : String} (hv : v ≠ "") : truthy (some v) = true := by
  simp [truthy, hv]

theorem truthyVal_eq_some {o : Option String} {v : String} :
    truthyVal o = some v ↔ o = some v ∧ v ≠ "" := by
  cases o with
  | none => simp [truthyVal, truthy]
  | some s =>
    by_cases hs : s = ""
    · subst hs
      simp only [truthyVal, truthy]
      simp only [bne_self_eq_false, if_false, Bool.false_eq_true]
      constructor
      · intro h; simp at h
      · rintro ⟨h, hv⟩
        have : "" = v := by simpa using h
        exact absurd this.symm hv
    · simp only [truthyVal, truthy, bne_iff_ne, ne_eq, hs, not_false_eq_true, if_true,
        Option.some.injEq]
      constructor
      · rintro rfl; exact ⟨rfl, hs⟩
      · rintro ⟨h, _⟩; simpa using h

theorem mem_truthyList {l : List (Option String)} {v : String} :
    v ∈ truthyList l ↔ some v ∈ l ∧ v ≠ "" := by
  simp only [truthyList, List.mem_filterMap]
  constructor
  · rintro ⟨o, ho, hv⟩
    rcases truthyVal_eq_some.mp hv with ⟨rfl, hne⟩
    exact ⟨ho, hne⟩
  · rintro ⟨hv, hne⟩
    exact ⟨some v, hv, truthyVal_eq_some.mpr ⟨rfl, hne⟩⟩

theorem truthyList_cons_some {v : String} (hv : v ≠ "") (l : List (Option String)) :
    truthyList (some v :: l) = v :: truthyList l := by
  simp [truthyList, List.filterMap_cons, truthyVal, truthy, hv]

theorem truthyList_cons_none (l : List (Option String)) :
    truthyList (none :: l) = truthyList l := by
  simp [truthyList, List.filterMap_cons, truthyVal, truthy]

theorem dedupAux_spec [DecidableEq α] (l : List α) :
    ∀ seen : List α, (dedupAux seen l).Nodup ∧ ∀ x ∈ dedupAux seen l, x ∉ seen := by
  induction l with
  | nil => intro seen; simp [dedupAux]
  | cons x xs ih =>
    intro seen
    by_cases hx : x ∈ seen
    · have hc : seen.contains x = true := by simpa using hx
      simp only [dedupAux, hc, if_true]
      exact ih seen
    · have hc : seen.contains x = false := by simpa using hx
      simp only [dedupAux, hc, Bool.false_eq_true, if_false]
      obtain ⟨hnd, hnotin⟩ := ih (x :: seen)
      constructor
      · rw [List.nodup_cons]
        exact ⟨fun hmem => hnotin x hmem (List.mem_cons_self _ _), hnd⟩
      · intro y hy
        rcases List.mem_cons.mp hy with rfl | hy
        · exact hx
        · exact fun hys => hnotin y hy (List.mem_cons_of_mem _ hys)

theorem dedupKeepFirst_nodup [DecidableEq α] (l : List α) : (dedupKeepFirst l).Nodup :=
  (dedupAux_spec l []).1

theorem dedupKeepFirst_cons [DecidableEq α] (x : α) (l : List α) :
    dedupKeepFirst (x :: l) = x :: dedupAux [x] l := by
  simp [dedupKeepFirst, dedupAux]

theorem foldl_pickOlder_mem (l : List Contact) :
    ∀ init : Contact, l.foldl pickOlder init ∈ init :: l := by
  induction l with
  | nil => intro init; simp
  | cons c t ih =>
    intro init
    simp only [List.foldl_cons]
    have h := ih (pickOlder init c)
    have hpick : pickOlder init c = c ∨ pickOlder init c = init := by
      unfold pickOlder; split
      · exact Or.inl rfl
      · exact Or.inr rfl
    rcases List.mem_cons.mp h with h1 | h1
    · rcases hpick with h2 | h2
      · rw [h1, h2]; simp
      · rw [h1, h2]; simp
    · simp [List.mem_cons, h1]

theorem foldl_pickOlder_le (l : List Contact) :
    ∀ init : Contact, ∀ c ∈ init :: l, (l.foldl pickOlder init).createdAt ≤ c.createdAt := by
  induction l with
  | nil =>
    intro init c hc
    rcases List.mem_cons.mp hc with rfl | hc
    · simp
    · simp at hc
  | cons d t ih =>
    intro init c hc
    simp only [List.foldl_cons]
    have hd : (pickOlder init d).createdAt ≤ init.createdAt ∧
        (pickOlder init d).createdAt ≤ d.createdAt := by
      unfold pickOlder; split
      · next h => exact ⟨le_of_lt h, le_refl _⟩
      · next h => exact ⟨le_refl _, le_of_not_lt h⟩
    rcases List.mem_cons.mp hc with h1 | h1
    · rw [h1]
      exact le_trans (ih (pickOlder init d) _ (List.mem_cons_self _ _)) hd.1
    · rcases List.mem_cons.mp h1 with h2 | h2
      · rw [h2]
        exact le_trans (ih (pickOlder init d) _ (List.mem_cons_self _ _)) hd.2
      · exact ih (pickOlder init d) c (List.mem_cons_of_mem _ h2)

theorem oldestPrimaryOf_isSome {l : List Contact} (h : l ≠ []) :
    ∃ o, oldestPrimaryOf l = some o := by
  cases l with
  | nil => exact absurd rfl h
  | cons x t => exact ⟨_, rfl⟩

theorem oldestPrimaryOf_mem {l : List Contact} {o : Contact}
    (h : oldestPrimaryOf l = some o) : o ∈ l := by
  cases l with
  | nil => simp [oldestPrimaryOf] at h
  | cons x t =>
    simp only [oldestPrimaryOf, Option.some.injEq] at h
    have hm := foldl_pickOlder_mem (x :: t) x
    rw [h] at hm
    rcases List.mem_cons.mp hm with h1 | h1
    · rw [h1]; exact List.mem_cons_self x t
    · exact h1

theorem oldestPrimaryOf_le {l : List Contact} {o : Contact}
    (h : oldestPrimaryOf l = some o) : ∀ c ∈ l, o.createdAt ≤ c.createdAt := by
  cases l with
  | nil => simp [oldestPrimaryOf] at h
  | cons x t =>
    simp only [oldestPrimaryOf, Option.some.injEq] at h
    intro c hc
    have hle := foldl_pickOlder_le (x :: t) x c
    rw [h] at hle
    exact hle (List.mem_cons_of_mem _ hc)

theorem mem_insertIfNew {x y : Nat} {acc : List Nat} :
    x ∈ insertIfNew y acc ↔ x = y ∨ x ∈ acc := by
  unfold insertIfNew
  by_cases h : y ∈ acc
  · have hc : acc.contains y = true := by simpa using h
    rw [if_pos hc]
    constructor
    · exact Or.inr
    · rintro (rfl | hx)
      · exact h
      · exact hx
  · have hc : acc.contains y = false := by simpa using h
    simp only [hc, Bool.false_eq_true, if_false, List.mem_append, List.mem_singleton]
    tauto

theorem mem_addCandidate {acc : List Nat} {m : Contact} {x : Nat} :
    x ∈ addCandidate acc m ↔
      x ∈ acc ∨ (m.linkPrecedence = .primary ∧ m.id = x) ∨
        (m.linkPrecedence = .secondary ∧ m.linkedId = some x ∧ 0 < x) := by
  unfold addCandidate
  cases hp : m.linkPrecedence with
  | primary =>
    simp only [Precedence.isPrimary, if_true]
    rw [mem_insertIfNew]
    constructor
    · rintro (rfl | hx)
      · exact Or.inr (Or.inl ⟨trivial, rfl⟩)
      · exact Or.inl hx
    · rintro (hx | ⟨_, h2⟩ | ⟨h1, _, _⟩)
      · exact Or.inr hx
      · exact Or.inl h2.symm
      · simp at h1
  | secondary =>
    simp only [Precedence.isPrimary, Bool.false_eq_true, if_false, hp]
    cases hl : m.linkedId with
    | none =>
      dsimp only
      constructor
      · exact fun hx => Or.inl hx
      · rintro (hx | ⟨h1, _⟩ | ⟨_, h2, _⟩)
        · exact hx
        · simp at h1
        · simp at h2
    | some l =>
      dsimp only
      by_cases h0 : 0 < l
      · rw [if_pos h0, mem_insertIfNew]
        constructor
        · rintro (rfl | hx)
          · exact Or.inr (Or.inr ⟨trivial, rfl, h0⟩)
          · exact Or.inl hx
        · rintro (hx | ⟨h1, _⟩ | ⟨_, h2, _⟩)
          · exact Or.inr hx
          · simp at h1
          · have hlx : l = x := by simpa using h2
            exact Or.inl hlx.symm
      · rw [if_neg h0]
        constructor
        · exact fun hx => Or.inl hx
        · rintro (hx | ⟨h1, _⟩ | ⟨_, h2, h3⟩)
          · exact hx
          · simp at h1
          · have : l = x := by simpa using h2
            subst this
            exact absurd h3 h0

/-- Membership in the candidate id set (identify.js lines 58-66): a
primary match contributes its id, a secondary match its positive
`linkedId`. -/
theorem mem_candidateIds {ms : List Contact} {x : Nat} :
    x ∈ candidateIds ms ↔
      ∃ m ∈ ms, (m.linkPrecedence = .primary ∧ m.id = x) ∨
        (m.linkPrecedence = .secondary ∧ m.linkedId = some x ∧ 0 < x) := by
  have main : ∀ (ms : List Contact) (acc : List Nat) (x : Nat),
      x ∈ ms.foldl addCandidate acc ↔ x ∈ acc ∨
        ∃ m ∈ ms, (m.linkPrecedence = .primary ∧ m.id = x) ∨
          (m.linkPrecedence = .secondary ∧ m.linkedId = some x ∧ 0 < x) := by
    intro ms
    induction ms with
    | nil => intro acc x; simp
    | cons m t ih =>
      intro acc x
      simp only [List.foldl_cons]
      rw [ih, mem_addCandidate]
      constructor
      · rintro ((hx | hm) | ⟨m', hm', hp⟩)
        · exact Or.inl hx
        · exact Or.inr ⟨m, List.mem_cons_self _ _, hm⟩
        · exact Or.inr ⟨m', List.mem_cons_of_mem _ hm', hp⟩
      · rintro (hx | ⟨m', hm', hp⟩)
        · exact Or.inl (Or.inl hx)
        · rcases List.mem_cons.mp hm' with h | h
          · subst h
            exact Or.inl (Or.inr hp)
          · exact Or.inr ⟨m', h, hp⟩
  rw [candidateIds, main]
  simp

/-! ## Lemmas about the merge loop -/

/-- `x` is the id of a fetched primary that the merge loop demotes
(everything in `ps` except the canonical id `o`). -/
def demotedIn (o : Nat) (ps : List Contact) (x : Nat) : Prop :=
  ∃ p ∈ ps, p.id = x ∧ x ≠ o

theorem not_demotedIn_o {o : Nat} {ps : List Contact} : ¬ demotedIn o ps o := by
  rintro ⟨p, _, _, h⟩
  exact h rfl

theorem demotedIn_cons {o : Nat} {p : Contact} {ps : List Contact} {x : Nat} :
    demotedIn o (p :: ps) x ↔ (p.id = x ∧ x ≠ o) ∨ demotedIn o ps x := by
  constructor
  · rintro ⟨p', hp', h⟩
    rcases List.mem_cons.mp hp' with h1 | h1
    · subst h1; exact Or.inl h
    · exact Or.inr ⟨p', h1, h⟩
  · rintro (h | ⟨p', hp', h⟩)
    · exact ⟨p, List.mem_cons_self _ _, h⟩
    · exact ⟨p', List.mem_cons_of_mem _ hp', h⟩

theorem demoteOne_preserves (o pid n : Nat) (c : Contact) :
    (demoteOne o pid n c).id = c.id ∧ (demoteOne o pid n c).email = c.email ∧
    (demoteOne o pid n c).phoneNumber = c.phoneNumber ∧
    (demoteOne o pid n c).createdAt = c.createdAt ∧
    (demoteOne o pid n c).deletedAt = c.deletedAt := by
  unfold demoteOne
  dsimp only
  split <;> split <;> simp

theorem demoteOne_eq_demoted {o pid : Nat} (n : Nat) {c : Contact}
    (hc : c.id = pid) (hne : pid ≠ o) :
    demoteOne o pid n c =
      { c with linkPrecedence := .secondary, linkedId := some o, updatedAt := n } := by
  unfold demoteOne
  have h1 : (c.id == pid) = true := by simpa using hc
  rw [if_pos h1]
  dsimp only
  have h2 : ((some o : Option Nat) == some pid) = false := by
    simp only [beq_eq_false_iff_ne, ne_eq, Option.some.injEq]
    exact fun h => hne h.symm
  simp [h2]

theorem demoteOne_eq_relinked {o pid : Nat} (n : Nat) {c : Contact}
    (hid : c.id ≠ pid) (hl : c.linkedId = some pid) (hsec : c.linkPrecedence = .secondary)
    (hdel : c.deletedAt = none) :
    demoteOne o pid n c = { c with linkedId := some o, updatedAt := n } := by
  unfold demoteOne
  have h1 : (c.id == pid) = false := by simpa using hid
  simp only [h1, Bool.false_eq_true, if_false]
  have h2 : (c.linkedId == some pid && c.linkPrecedence.isSecondary && c.deletedAt == none)
      = true := by
    simp [hl, hsec, hdel, Precedence.isSecondary]
  rw [if_pos h2]

theorem demoteOne_eq_self {o pid : Nat} (n : Nat) {c : Contact} (hid : c.id ≠ pid)
    (h : c.linkedId ≠ some pid ∨ c.linkPrecedence ≠ .secondary ∨ c.deletedAt ≠ none) :
    demoteOne o pid n c = c := by
  unfold demoteOne
  have h1 : (c.id == pid) = false := by simpa using hid
  simp only [h1, Bool.false_eq_true, if_false]
  have h2 : (c.linkedId == some pid && c.linkPrecedence.isSecondary && c.deletedAt == none)
      = false := by
    rcases h with h | h | h
    · simp [h]
    · have : c.linkPrecedence.isSecondary = false := by
        cases hp : c.linkPrecedence
        · simp [Precedence.isSecondary]
        · exact absurd hp h
      simp [this]
    · simp [h]
  simp [h2]

theorem applyAll_nil (o n : Nat) (c : Contact) : applyAll o n [] c = c := rfl

theorem applyAll_cons (o n : Nat) (p : Contact) (ps : List Contact) (c : Contact) :
    applyAll o n (p :: ps) c =
      applyAll o n ps (if p.id == o then c else demoteOne o p.id n c) := rfl

theorem applyAll_untouched {o : Nat} (n : Nat) {ps : List Contact} {c : Contact}
    (hid : ¬ demotedIn o ps c.id)
    (hlink : ∀ q, c.linkedId = some q → demotedIn o ps q →
      ¬(c.linkPrecedence = .secondary ∧ c.deletedAt = none)) :
    applyAll o n ps c = c := by
  induction ps with
  | nil => exact applyAll_nil o n c
  | cons p ps ih =>
    rw [applyAll_cons]
    by_cases hpo : p.id = o
    · have hb : (p.id == o) = true := by simpa using hpo
      rw [if_pos hb]
      exact ih (fun h => hid (demotedIn_cons.mpr (Or.inr h)))
        (fun q hq hdm => hlink q hq (demotedIn_cons.mpr (Or.inr hdm)))
    · have hb : (p.id == o) = false := by simpa using hpo
      simp only [hb, Bool.false_eq_true, if_false]
      have hcid : c.id ≠ p.id := by
        intro h
        exact hid (demotedIn_cons.mpr (Or.inl ⟨h.symm, h ▸ hpo⟩))
      have hstep : demoteOne o p.id n c = c := by
        by_cases hcl : c.linkedId = some p.id
        · have hdm : demotedIn o (p :: ps) p.id :=
            demotedIn_cons.mpr (Or.inl ⟨rfl, hpo⟩)
          have hns := hlink p.id hcl hdm
          by_cases hsec : c.linkPrecedence = .secondary
          · have hdel : c.deletedAt ≠ none := fun hd => hns ⟨hsec, hd⟩
            exact demoteOne_eq_self n hcid (Or.inr (Or.inr hdel))
          · exact demoteOne_eq_self n hcid (Or.inr (Or.inl hsec))
        · exact demoteOne_eq_self n hcid (Or.inl hcl)
      rw [hstep]
      exact ih (fun h => hid (demotedIn_cons.mpr (Or.inr h)))
        (fun q hq hdm => hlink q hq (demotedIn_cons.mpr (Or.inr hdm)))

theorem applyAll_demoted {o : Nat} (n : Nat) {ps : List Contact} :
    ∀ {c : Contact}, (ps.map (·.id)).Nodup → demotedIn o ps c.id →
      applyAll o n ps c =
        { c with linkPrecedence := .secondary, linkedId := some o, updatedAt := n } := by
  induction ps with
  | nil =>
    intro c _ hmem
    rcases hmem with ⟨p, hp, _⟩
    simp at hp
  | cons p ps ih =>
    intro c hnd hmem
    have hnd' : (ps.map (·.id)).Nodup := (List.nodup_cons.mp hnd).2
    rw [applyAll_cons]
    by_cases hpo : p.id = o
    · have hb : (p.id == o) = true := by simpa using hpo
      rw [if_pos hb]
      refine ih hnd' ?_
      rcases demotedIn_cons.mp hmem with ⟨h1, h2⟩ | h
      · exact absurd (h1 ▸ hpo) h2
      · exact h
    · have hb : (p.id == o) = false := by simpa using hpo
      simp only [hb, Bool.false_eq_true, if_false]
      by_cases hcp : c.id = p.id
      · rw [demoteOne_eq_demoted n hcp hpo]
        have hres : applyAll o n ps
            { c with linkPrecedence := .secondary, linkedId := some o, updatedAt := n } =
            { c with linkPrecedence := .secondary, linkedId := some o, updatedAt := n } :=
          applyAll_untouched n
          (by
            intro h
            rcases h with ⟨p', hp', h1, _⟩
            dsimp at h1
            rw [hcp] at h1
            have hhead : p.id ∉ ps.map (·.id) := by
              have h2 := hnd
              simp only [List.map_cons, List.nodup_cons] at h2
              exact h2.1
            exact hhead (List.mem_map.mpr ⟨p', hp', h1⟩)
          )
          (by
            intro q hq hdm
            have ho : o = q := by simpa using hq
            exact absurd hdm (ho ▸ not_demotedIn_o)
          )
        rw [hres]
      · have hmem' : demotedIn o ps c.id := by
          rcases demotedIn_cons.mp hmem with ⟨h1, _⟩ | h
          · exact absurd h1.symm hcp
          · exact h
        by_cases hcl : c.linkedId = some p.id ∧ c.linkPrecedence = .secondary ∧
            c.deletedAt = none
        · rw [demoteOne_eq_relinked n hcp hcl.1 hcl.2.1 hcl.2.2]
          have hres := ih (c := { c with linkedId := some o, updatedAt := n }) hnd'
            (show demotedIn o ps ({ c with linkedId := some o, updatedAt := n } : Contact).id
              from hmem')
          rw [hres]
        · have hstep : demoteOne o p.id n c = c := by
            by_cases h1 : c.linkedId = some p.id
            · by_cases h2 : c.linkPrecedence = .secondary
              · have h3 : c.deletedAt ≠ none := fun hd => hcl ⟨h1, h2, hd⟩
                exact demoteOne_eq_self n hcp (Or.inr (Or.inr h3))
              · exact demoteOne_eq_self n hcp (Or.inr (Or.inl h2))
            · exact demoteOne_eq_self n hcp (Or.inl h1)
          rw [hstep]
          exact ih hnd' hmem'

theorem applyAll_relinked {o q : Nat} (n : Nat) {ps : List Contact} {c : Contact}
    (hid : ¬ demotedIn o ps c.id) (hq : c.linkedId = some q) (hqm : demotedIn o ps q)
    (hsec : c.linkPrecedence = .secondary) (hdel : c.deletedAt = none) :
    applyAll o n ps c = { c with linkedId := some o, updatedAt := n } := by
  induction ps with
  | nil =>
    rcases hqm with ⟨p, hp, _⟩
    simp at hp
  | cons p ps ih =>
    rw [applyAll_cons]
    by_cases hpo : p.id = o
    · have hb : (p.id == o) = true := by simpa using hpo
      rw [if_pos hb]
      have hqm' : demotedIn o ps q := by
        rcases demotedIn_cons.mp hqm with ⟨h1, h2⟩ | h
        · exact absurd (h1 ▸ hpo) h2
        · exact h
      exact ih (fun h => hid (demotedIn_cons.mpr (Or.inr h))) hqm'
    · have hb : (p.id == o) = false := by simpa using hpo
      simp only [hb, Bool.false_eq_true, if_false]
      have hcid : c.id ≠ p.id := by
        intro h
        exact hid (demotedIn_cons.mpr (Or.inl ⟨h.symm, h ▸ hpo⟩))
      by_cases hqp : q = p.id
      · rw [hqp] at hq
        rw [demoteOne_eq_relinked n hcid hq hsec hdel]
        exact applyAll_untouched n
          (fun h => hid (demotedIn_cons.mpr (Or.inr h)))
          (by
            intro q' hq' hdm
            have ho : o = q' := by simpa using hq'
            exact absurd hdm (ho ▸ not_demotedIn_o))
      · have hstep : demoteOne o p.id n c = c :=
          demoteOne_eq_self n hcid (Or.inl (by rw [hq]; simpa using fun h => hqp h))
        rw [hstep]
        have hqm' : demotedIn o ps q := by
          rcases demotedIn_cons.mp hqm with ⟨h1, _⟩ | h
          · exact absurd h1.symm hqp
          · exact h
        exact ih (fun h => hid (demotedIn_cons.mpr (Or.inr h))) hqm'

theorem applyAll_id (o n : Nat) (ps : List Contact) :
    ∀ c : Contact, (applyAll o n ps c).id = c.id := by
  induction ps with
  | nil => intro c; rfl
  | cons p ps ih =>
    intro c
    rw [applyAll_cons]
    by_cases hpo : (p.id == o) = true
    · rw [if_pos hpo]; exact ih c
    · rw [if_neg hpo, ih (demoteOne o p.id n c)]
      exact (demoteOne_preserves o p.id n c).1

theorem applyAll_email (o n : Nat) (ps : List Contact) :
    ∀ c : Contact, (applyAll o n ps c).email = c.email := by
  induction ps with
  | nil => intro c; rfl
  | cons p ps ih =>
    intro c
    rw [applyAll_cons]
    by_cases hpo : (p.id == o) = true
    · rw [if_pos hpo]; exact ih c
    · rw [if_neg hpo, ih (demoteOne o p.id n c)]
      exact (demoteOne_preserves o p.id n c).2.1

theorem applyAll_phoneNumber (o n : Nat) (ps : List Contact) :
    ∀ c : Contact, (applyAll o n ps c).phoneNumber = c.phoneNumber := by
  induction ps with
  | nil => intro c; rfl
  | cons p ps ih =>
    intro c
    rw [applyAll_cons]
    by_cases hpo : (p.id == o) = true
    · rw [if_pos hpo]; exact ih c
    · rw [if_neg hpo, ih (demoteOne o p.id n c)]
      exact (demoteOne_preserves o p.id n c).2.2.1

theorem applyAll_createdAt (o n : Nat) (ps : List Contact) :
    ∀ c : Contact, (applyAll o n ps c).createdAt = c.createdAt := by
  induction ps with
  | nil => intro c; rfl
  | cons p ps ih =>
    intro c
    rw [applyAll_cons]
    by_cases hpo : (p.id == o) = true
    · rw [if_pos hpo]; exact ih c
    · rw [if_neg hpo, ih (demoteOne o p.id n c)]
      exact (demoteOne_preserves o p.id n c).2.2.2.1

theorem applyAll_deletedAt (o n : Nat) (ps : List Contact) :
    ∀ c : Contact, (applyAll o n ps c).deletedAt = c.deletedAt := by
  induction ps with
  | nil => intro c; rfl
  | cons p ps ih =>
    intro c
    rw [applyAll_cons]
    by_cases hpo : (p.id == o) = true
    · rw [if_pos hpo]; exact ih c
    · rw [if_neg hpo, ih (demoteOne o p.id n c)]
      exact (demoteOne_preserves o p.id n c).2.2.2.2

/-- The three possible fates of a row under the merge loop: untouched,
demoted (it was a losing primary id), or re-pointed at the canonical id
(it was a secondary of a losing primary). -/
theorem applyAll_cases {o : Nat} (n : Nat) {ps : List Contact} (c : Contact)
    (hnd : (ps.map (·.id)).Nodup) :
    applyAll o n ps c = c ∨
    (demotedIn o ps c.id ∧ applyAll o n ps c =
      { c with linkPrecedence := .secondary, linkedId := some o, updatedAt := n }) ∨
    (c.linkPrecedence = .secondary ∧ c.deletedAt = none ∧
      applyAll o n ps c = { c with linkedId := some o, updatedAt := n }) := by
  by_cases hmem : demotedIn o ps c.id
  · exact Or.inr (Or.inl ⟨hmem, applyAll_demoted n hnd hmem⟩)
  · cases hcl : c.linkedId with
    | none =>
      refine Or.inl (applyAll_untouched n hmem ?_)
      intro q hq
      rw [hcl] at hq
      exact absurd hq (by simp)
    | some q =>
      by_cases hdm : demotedIn o ps q
      · by_cases hsec : c.linkPrecedence = .secondary
        · by_cases hdel : c.deletedAt = none
          · exact Or.inr (Or.inr ⟨hsec, hdel, applyAll_relinked n hmem hcl hdm hsec hdel⟩)
          · refine Or.inl (applyAll_untouched n hmem ?_)
            intro q' hq' _
            exact fun hc => hdel hc.2
        · refine Or.inl (applyAll_untouched n hmem ?_)
          intro q' hq' _
          exact fun hc => hsec hc.1
      · refine Or.inl (applyAll_untouched n hmem ?_)
        intro q' hq' hdm'
        have : q' = q := by rw [hcl] at hq'; simpa using hq'.symm
        subst this
        exact absurd hdm' hdm

/-! ## Lemmas about the resolver pipeline -/

theorem mem_identifyMatches {s : Store} {e p : Option String} {c : Contact} :
    c ∈ identifyMatches s e p ↔ c ∈ s.contacts ∧ matchFilter e p c = true :=
  List.mem_filter

theorem matchFilter_iff {e p : Option String} {c : Contact} :
    matchFilter e p c = true ↔ c.deletedAt = none ∧
      ((truthy e = true ∧ c.email = e) ∨ (truthy p = true ∧ c.phoneNumber = p)) := by
  simp [matchFilter, and_assoc]

theorem mem_primsOf {s : Store} {e p : Option String} {c : Contact} :
    c ∈ primsOf s e p ↔ c ∈ s.contacts ∧ c.id ∈ candOf s e p ∧ c.deletedAt = none := by
  simp [primsOf, List.mem_filter, and_assoc]

theorem mem_secsOf {s : Store} {e p : Option String} {c : Contact} :
    c ∈ secsOf s e p ↔ c ∈ s.contacts ∧
      (∃ l, c.linkedId = some l ∧ l ∈ candOf s e p) ∧
      c.linkPrecedence = .secondary ∧ c.deletedAt = none := by
  simp only [secsOf, List.mem_filter, Bool.and_eq_true, Precedence.isSecondary_iff,
    beq_iff_eq, and_assoc]
  constructor
  · rintro ⟨hc, hl, hsec, hdel⟩
    refine ⟨hc, ?_, hsec, hdel⟩
    unfold linkedIn at hl
    cases hcl : c.linkedId with
    | none => rw [hcl] at hl; simp at hl
    | some l =>
      rw [hcl] at hl
      exact ⟨l, rfl, by simpa using hl⟩
  · rintro ⟨hc, ⟨l, hcl, hl⟩, hsec, hdel⟩
    refine ⟨hc, ?_, hsec, hdel⟩
    unfold linkedIn
    rw [hcl]
    simpa using hl

theorem wf_id_inj {s : Store} (hwf : WFStore s) {a b : Contact}
    (ha : a ∈ s.contacts) (hb : b ∈ s.contacts) (h : a.id = b.id) : a = b :=
  List.inj_on_of_nodup_map hwf.1 ha hb h

/-- In a well-formed store, every candidate id is the id of a non-deleted
primary row. -/
theorem cand_is_primary_id {s : Store} {e p : Option String} (hwf : WFStore s) {x : Nat}
    (hx : x ∈ candOf s e p) :
    ∃ d ∈ s.contacts, d.id = x ∧ d.linkPrecedence = .primary ∧ d.deletedAt = none ∧
      d.linkedId = none ∧ 0 < x := by
  obtain ⟨hnd, hpos, hids, hdel, hprim, hsec⟩ := hwf
  rcases mem_candidateIds.mp hx with ⟨m, hm, hcase⟩
  have hmem : m ∈ s.contacts := (mem_identifyMatches.mp hm).1
  rcases hcase with ⟨hp, hid⟩ | ⟨hp, hl, h0⟩
  · exact ⟨m, hmem, hid, hp, hdel m hmem, hprim m hmem hp, hid ▸ (hids m hmem).1⟩
  · obtain ⟨d, hd, hdl, hdp⟩ := hsec m hmem hp
    rw [hl] at hdl
    have hdx : d.id = x := by simpa using hdl.symm
    exact ⟨d, hd, hdx, hdp, hdel d hd, hprim d hd hdp, h0⟩

/-- In a well-formed store, every fetched `primaryContacts` row really is
a primary row. -/
theorem primsOf_primary {s : Store} {e p : Option String} (hwf : WFStore s) {c : Contact}
    (hc : c ∈ primsOf s e p) :
    c.linkPrecedence = .primary ∧ c.linkedId = none ∧ c.deletedAt = none ∧
      c.id ∈ candOf s e p ∧ 0 < c.id := by
  obtain ⟨hcs, hcand, hdel⟩ := mem_primsOf.mp hc
  obtain ⟨d, hd, hdx, hdp, _, hdl, h0⟩ := cand_is_primary_id hwf hcand
  have : d = c := wf_id_inj hwf hd hcs hdx
  subst this
  exact ⟨hdp, hdl, hdel, hcand, h0⟩

theorem primsOf_nonempty {s : Store} {e p : Option String} (hwf : WFStore s)
    (hne : identifyMatches s e p ≠ []) : primsOf s e p ≠ [] := by
  obtain ⟨hnd, hpos, hids, hdel, hprim, hsec⟩ := hwf
  obtain ⟨m, hm⟩ := List.exists_mem_of_ne_nil _ hne
  have hmem : m ∈ s.contacts := (mem_identifyMatches.mp hm).1
  cases hp : m.linkPrecedence with
  | primary =>
    have hcand : m.id ∈ candOf s e p :=
      mem_candidateIds.mpr ⟨m, hm, Or.inl ⟨hp, rfl⟩⟩
    have : m ∈ primsOf s e p := mem_primsOf.mpr ⟨hmem, hcand, hdel m hmem⟩
    exact fun hnil => by simp [hnil] at this
  | secondary =>
    obtain ⟨d, hd, hdl, hdp⟩ := hsec m hmem hp
    have h0 : 0 < d.id := (hids d hd).1
    have hcand : d.id ∈ candOf s e p :=
      mem_candidateIds.mpr ⟨m, hm, Or.inr ⟨hp, hdl, h0⟩⟩
    have : d ∈ primsOf s e p := mem_primsOf.mpr ⟨hd, hcand, hdel d hd⟩
    exact fun hnil => by simp [hnil] at this

/-- Properties of the selected canonical primary in a well-formed store. -/
theorem oldest_spec {s : Store} {e p : Option String} (hwf : WFStore s) {oldest : Contact}
    (ho : oldestPrimaryOf (primsOf s e p) = some oldest) :
    oldest ∈ s.contacts ∧ oldest.linkPrecedence = .primary ∧ oldest.linkedId = none ∧
      oldest.deletedAt = none ∧ oldest.id ∈ candOf s e p ∧ 0 < oldest.id := by
  have hmem := oldestPrimaryOf_mem ho
  obtain ⟨hp, hl, hdel, hcand, h0⟩ := primsOf_primary hwf hmem
  exact ⟨(mem_primsOf.mp hmem).1, hp, hl, hdel, hcand, h0⟩

theorem mergeAll_map_id (o n : Nat) (ps contacts : List Contact) :
    (mergeAll o n ps contacts).map (·.id) = contacts.map (·.id) := by
  unfold mergeAll
  rw [List.map_map]
  exact List.map_congr_left (fun c _ => applyAll_id o n ps c)

theorem mem_mergeAll_iff {o n : Nat} {ps contacts : List Contact} {c' : Contact} :
    c' ∈ mergeAll o n ps contacts ↔ ∃ c ∈ contacts, applyAll o n ps c = c' :=
  List.mem_map

theorem mem_contactsAfter_iff {s : Store} {e p : Option String} {oldest : Contact}
    {c' : Contact} :
    c' ∈ contactsAfter s e p oldest ↔
      (∃ c ∈ s.contacts, applyAll oldest.id s.now (primsOf s e p) c = c') ∨
      (createdFlag s e p = true ∧
        c' = ⟨s.nextId, e, p, .secondary, some oldest.id, s.now, s.now, none⟩) := by
  unfold contactsAfter
  cases hcr : createdFlag s e p with
  | true =>
    rw [if_pos rfl]
    simp only [List.mem_append, List.mem_singleton, mem_mergeAll_iff]
    constructor
    · rintro (h | h)
      · exact Or.inl h
      · exact Or.inr ⟨by trivial, h⟩
    · rintro (h | ⟨_, h⟩)
      · exact Or.inl h
      · exact Or.inr h
  | false =>
    rw [if_neg (by simp)]
    simp only [mem_mergeAll_iff]
    constructor
    · exact fun h => Or.inl h
    · rintro (h | ⟨h, _⟩)
      · exact h
      · simp at h

theorem mem_contactsAfter_of_merged {s : Store} {e p : Option String} {oldest : Contact}
    {c' : Contact} (h : c' ∈ mergeAll oldest.id s.now (primsOf s e p) s.contacts) :
    c' ∈ contactsAfter s e p oldest := by
  unfold contactsAfter
  split
  · exact List.mem_append.mpr (Or.inl h)
  · exact h

theorem identifyCore_of_empty {s : Store} {e p : Option String}
    (h : identifyMatches s e p = []) :
    identifyCore s e p = some
      (⟨s.contacts ++ [⟨s.nextId, e, p, .primary, none, s.now, s.now, none⟩],
        s.nextId + 1, s.now + 1⟩,
       ⟨s.nextId, truthyList [e], truthyList [p], []⟩) := by
  simp [identifyCore, h]

theorem identifyCore_of_nonempty {s : Store} {e p : Option String} {oldest fp : Contact}
    (hne : identifyMatches s e p ≠ [])
    (ho : oldestPrimaryOf (primsOf s e p) = some oldest)
    (hfp : (contactsAfter s e p oldest).find? (fun c => c.id == oldest.id) = some fp) :
    identifyCore s e p = some
      (⟨contactsAfter s e p oldest,
        if createdFlag s e p then s.nextId + 1 else s.nextId,
        if createdFlag s e p then s.now + 1 else s.now⟩,
       buildResponse oldest.id fp (finalSecondariesOf (contactsAfter s e p oldest) oldest.id)) := by
  have hb : (identifyMatches s e p).isEmpty = false := by
    rw [← Bool.not_eq_true, List.isEmpty_iff]
    exact hne
  simp only [identifyCore, hb, Bool.false_eq_true, if_false, ho, hfp]

theorem find_fp_exists {s : Store} {e p : Option String} {oldest : Contact}
    (ho : oldestPrimaryOf (primsOf s e p) = some oldest) :
    ∃ fp, (contactsAfter s e p oldest).find? (fun c => c.id == oldest.id) = some fp ∧
      fp.id = oldest.id ∧ fp ∈ contactsAfter s e p oldest := by
  have hmem := oldestPrimaryOf_mem ho
  have hsc : oldest ∈ s.contacts := (mem_primsOf.mp hmem).1
  have himg : applyAll oldest.id s.now (primsOf s e p) oldest ∈
      mergeAll oldest.id s.now (primsOf s e p) s.contacts :=
    mem_mergeAll_iff.mpr ⟨oldest, hsc, rfl⟩
  have hin : applyAll oldest.id s.now (primsOf s e p) oldest ∈ contactsAfter s e p oldest :=
    mem_contactsAfter_of_merged himg
  have hidok : ((applyAll oldest.id s.now (primsOf s e p) oldest).id == oldest.id) = true := by
    simp [applyAll_id]
  have hsome : ((contactsAfter s e p oldest).find? (fun c => c.id == oldest.id)).isSome := by
    rw [List.find?_isSome]
    exact ⟨_, hin, hidok⟩
  obtain ⟨fp, hfp⟩ := Option.isSome_iff_exists.mp hsome
  refine ⟨fp, hfp, ?_, List.mem_of_find?_eq_some hfp⟩
  have := List.find?_some hfp
  simpa using this

/-- On a well-formed store the main handler never hits one of its crash
paths: `Resolve` always produces a result. -/
theorem identifyCore_some {s : Store} (e p : Option String) (hwf : WFStore s) :
    ∃ s' r, identifyCore s e p = some (s', r) := by
  by_cases hne : identifyMatches s e p = []
  · exact ⟨_, _, identifyCore_of_empty hne⟩
  · obtain ⟨oldest, ho⟩ := oldestPrimaryOf_isSome (primsOf_nonempty hwf hne)
    obtain ⟨fp, hfp, _, _⟩ := find_fp_exists ho
    exact ⟨_, _, identifyCore_of_nonempty hne ho hfp⟩

theorem primsOf_nodup {s : Store} {e p : Option String} (hwf : WFStore s) :
    ((primsOf s e p).map (·.id)).Nodup := by
  have hsub : List.Sublist (primsOf s e p) s.contacts := List.filter_sublist _
  exact hwf.1.sublist (hsub.map (·.id))

theorem applyAll_oldest {s : Store} {e p : Option String} {oldest : Contact}
    (hwf : WFStore s) (ho : oldestPrimaryOf (primsOf s e p) = some oldest) :
    applyAll oldest.id s.now (primsOf s e p) oldest = oldest := by
  obtain ⟨_, _, hl, _, _, _⟩ := oldest_spec hwf ho
  refine applyAll_untouched s.now not_demotedIn_o ?_
  intro q hq
  rw [hl] at hq
  exact absurd hq (by simp)

theorem oldest_mem_contactsAfter {s : Store} {e p : Option String} {oldest : Contact}
    (hwf : WFStore s) (ho : oldestPrimaryOf (primsOf s e p) = some oldest) :
    oldest ∈ contactsAfter s e p oldest := by
  have hsc : oldest ∈ s.contacts := (oldest_spec hwf ho).1
  have h := mem_mergeAll_iff.mpr ⟨oldest, hsc, applyAll_oldest hwf ho⟩
  exact mem_contactsAfter_of_merged h

/-- Well-formedness is preserved by every successful Resolve. -/
theorem wf_preserved {s s' : Store} {e p : Option String} {r : Response}
    (hwf : WFStore s) (h : identifyCore s e p = some (s', r)) : WFStore s' := by
  by_cases hne : identifyMatches s e p = []
  · have hsh := identifyCore_of_empty (s := s) (e := e) (p := p) hne
    rw [h] at hsh
    obtain ⟨hs', -⟩ := Prod.mk.injEq .. ▸ Option.some.inj hsh.symm
    obtain ⟨hnd, hpos, hids, hdel, hprim, hsec⟩ := hwf
    subst hs'
    refine ⟨?_, by dsimp only; omega, ?_, ?_, ?_, ?_⟩
    · rw [List.map_append]
      rw [List.nodup_append]
      refine ⟨hnd, by simp, ?_⟩
      intro a ha hb
      simp only [List.map_cons, List.map_nil, List.mem_singleton] at hb
      obtain ⟨c, hc, hca⟩ := List.mem_map.mp ha
      have := (hids c hc).2
      omega
    · intro c hc
      rcases List.mem_append.mp hc with hc | hc
      · have hb := hids c hc
        refine ⟨hb.1, ?_⟩
        dsimp only
        omega
      · simp only [List.mem_singleton] at hc
        subst hc
        dsimp only
        omega
    · intro c hc
      rcases List.mem_append.mp hc with hc | hc
      · exact hdel c hc
      · simp only [List.mem_singleton] at hc
        subst hc
        rfl
    · intro c hc hp
      rcases List.mem_append.mp hc with hc | hc
      · exact hprim c hc hp
      · simp only [List.mem_singleton] at hc
        subst hc
        rfl
    · intro c hc hp
      rcases List.mem_append.mp hc with hc | hc
      · obtain ⟨d, hd, hdl, hdp⟩ := hsec c hc hp
        exact ⟨d, List.mem_append.mpr (Or.inl hd), hdl, hdp⟩
      · simp only [List.mem_singleton] at hc
        subst hc
        simp at hp
  · obtain ⟨oldest, ho⟩ := oldestPrimaryOf_isSome (primsOf_nonempty hwf hne)
    obtain ⟨fp, hfp, hfpid, hfpmem⟩ := find_fp_exists ho
    have hsh := identifyCore_of_nonempty hne ho hfp
    rw [h] at hsh
    obtain ⟨hs', -⟩ := Prod.mk.injEq .. ▸ Option.some.inj hsh.symm
    subst hs'
    obtain ⟨hosc, hoprim, holid, hodel, hocand, hopos⟩ := oldest_spec hwf ho
    have hpnd := primsOf_nodup (e := e) (p := p) hwf
    obtain ⟨hnd, hpos, hids, hdel, hprim, hsec⟩ := hwf
    have hwf' : WFStore s := ⟨hnd, hpos, hids, hdel, hprim, hsec⟩
    have hmapid : ∀ {c' : Contact}, c' ∈ mergeAll oldest.id s.now (primsOf s e p) s.contacts →
        ∃ c ∈ s.contacts, applyAll oldest.id s.now (primsOf s e p) c = c' := by
      intro c' hc'
      exact mem_mergeAll_iff.mp hc'
    constructor
    · -- unique ids
      show ((contactsAfter s e p oldest).map (·.id)).Nodup
      unfold contactsAfter
      cases hcr : createdFlag s e p with
      | true =>
        rw [if_pos rfl, List.map_append, List.nodup_append]
        refine ⟨by rw [mergeAll_map_id]; exact hnd, by simp, ?_⟩
        intro a ha hb
        simp only [List.map_cons, List.map_nil, List.mem_singleton] at hb
        rw [mergeAll_map_id] at ha
        obtain ⟨c, hc, hca⟩ := List.mem_map.mp ha
        have := (hids c hc).2
        omega
      | false =>
        rw [if_neg (by simp), mergeAll_map_id]
        exact hnd
    refine ⟨by dsimp only; split <;> omega, ?_, ?_, ?_, ?_⟩
    · -- id bounds
      intro c' hc'
      rcases mem_contactsAfter_iff.mp hc' with ⟨c, hc, hca⟩ | ⟨hcr, hrfl⟩
      · have hcid : c'.id = c.id := by rw [← hca]; exact applyAll_id _ _ _ _
        have hb := hids c hc
        rw [hcid]
        refine ⟨hb.1, ?_⟩
        dsimp only
        split <;> omega
      · subst hrfl
        dsimp only
        rw [if_pos hcr]
        exact ⟨hpos, by omega⟩
    · -- no deleted rows
      intro c' hc'
      rcases mem_contactsAfter_iff.mp hc' with ⟨c, hc, hca⟩ | ⟨_, hrfl⟩
      · rw [← hca, applyAll_deletedAt]
        exact hdel c hc
      · subst hrfl
        rfl
    · -- primaries have no linkedId
      intro c' hc' hp
      rcases mem_contactsAfter_iff.mp hc' with ⟨c, hc, hca⟩ | ⟨_, hrfl⟩
      · rcases applyAll_cases s.now c hpnd with hcase | ⟨_, hcase⟩ | ⟨hcsec, _, hcase⟩
        · rw [hcase] at hca
          subst hca
          exact hprim c hc hp
        · rw [hcase] at hca
          subst hca
          simp at hp
        · rw [hcase] at hca
          subst hca
          dsimp at hp
          rw [hcsec] at hp
          simp at hp
      · subst hrfl
        simp at hp
    · -- secondaries point at a primary row
      intro c' hc' hp
      have holdmem : oldest ∈ contactsAfter s e p oldest := oldest_mem_contactsAfter hwf' ho
      rcases mem_contactsAfter_iff.mp hc' with ⟨c, hc, hca⟩ | ⟨_, hrfl⟩
      · by_cases hdm : demotedIn oldest.id (primsOf s e p) c.id
        · have hcase := applyAll_demoted (o := oldest.id) s.now hpnd hdm
          rw [hcase] at hca
          subst hca
          exact ⟨oldest, holdmem, rfl, hoprim⟩
        · cases hcp : c.linkPrecedence with
          | primary =>
            have hcl := hprim c hc hcp
            have hcase : applyAll oldest.id s.now (primsOf s e p) c = c :=
              applyAll_untouched s.now hdm
                (fun q hq _ => by rw [hcl] at hq; exact absurd hq (by simp))
            rw [hcase] at hca
            subst hca
            rw [hcp] at hp
            simp at hp
          | secondary =>
            obtain ⟨d, hd, hdl, hdp⟩ := hsec c hc hcp
            by_cases hddm : demotedIn oldest.id (primsOf s e p) d.id
            · have hcase :=
                applyAll_relinked (q := d.id) s.now hdm hdl hddm hcp (hdel c hc)
              rw [hcase] at hca
              subst hca
              exact ⟨oldest, holdmem, rfl, hoprim⟩
            · have hcase : applyAll oldest.id s.now (primsOf s e p) c = c :=
                applyAll_untouched s.now hdm (fun q hq hqdm => by
                  rw [hdl] at hq
                  have hq' : d.id = q := by simpa using hq
                  exact absurd (hq' ▸ hqdm) hddm)
              rw [hcase] at hca
              subst hca
              have hdun : applyAll oldest.id s.now (primsOf s e p) d = d :=
                applyAll_untouched s.now hddm
                  (fun q hq _ => by rw [hprim d hd hdp] at hq; exact absurd hq (by simp))
              have hdmem : d ∈ contactsAfter s e p oldest :=
                mem_contactsAfter_of_merged (mem_mergeAll_iff.mpr ⟨d, hd, hdun⟩)
              exact ⟨d, hdmem, hdl, hdp⟩
      · subst hrfl
        exact ⟨oldest, holdmem, rfl, hoprim⟩

theorem reachable_wf {s : Store} (h : Reachable s) : WFStore s := by
  induction h with
  | init =>
    refine ⟨by simp, by decide, ?_, ?_, ?_, ?_⟩ <;> intro c hc <;> simp at hc
  | step _ hcore ih => exact wf_preserved ih hcore

/-- Membership of a row in the cluster headed by `A`: it is `A` itself or
a live secondary pointing directly at `A`. -/
def inCluster (A c : Contact) : Prop :=
  c = A ∨ (c.linkedId = some A.id ∧ c.linkPrecedence = .secondary ∧ c.deletedAt = none)

theorem matchFilter_applyAll (e p : Option String) (o n : Nat) (ps : List Contact)
    (c : Contact) : matchFilter e p (applyAll o n ps c) = matchFilter e p c := by
  unfold matchFilter
  rw [applyAll_email, applyAll_phoneNumber, applyAll_deletedAt]

theorem sec_not_demoted {s : Store} {e p : Option String} (hwf : WFStore s) {c : Contact}
    (hc : c ∈ s.contacts) (hcp : c.linkPrecedence = .secondary) (o : Nat) :
    ¬ demotedIn o (primsOf s e p) c.id := by
  rintro ⟨p', hp', hid, -⟩
  have hp'prim := (primsOf_primary hwf hp').1
  have hp's : p' ∈ s.contacts := (mem_primsOf.mp hp').1
  have : p' = c := wf_id_inj hwf hp's hc hid
  subst this
  rw [hp'prim] at hcp
  simp at hcp

/-- Every row of the pre-state whose cluster was selected as a candidate
ends up in the canonical primary's cluster after the merge loop. -/
theorem clustered_image {s : Store} {e p : Option String} {oldest : Contact}
    (hwf : WFStore s) (ho : oldestPrimaryOf (primsOf s e p) = some oldest) {c : Contact}
    (hc : c ∈ s.contacts)
    (hcand : (c.linkPrecedence = .primary ∧ c.id ∈ candOf s e p ∧ c.deletedAt = none) ∨
      (c.linkPrecedence = .secondary ∧ c.deletedAt = none ∧
        ∃ l, c.linkedId = some l ∧ l ∈ candOf s e p)) :
    inCluster oldest (applyAll oldest.id s.now (primsOf s e p) c) := by
  obtain ⟨hosc, hoprim, holid, hodel, hocand, hopos⟩ := oldest_spec hwf ho
  have hpnd := primsOf_nodup (e := e) (p := p) hwf
  rcases hcand with ⟨hcp, hcand, hcdel⟩ | ⟨hcp, hcdel, l, hcl, hlcand⟩
  · -- c is a candidate primary
    by_cases hco : c.id = oldest.id
    · have : c = oldest := wf_id_inj hwf hc hosc hco
      subst this
      rw [applyAll_oldest hwf ho]
      exact Or.inl rfl
    · have hdm : demotedIn oldest.id (primsOf s e p) c.id :=
        ⟨c, mem_primsOf.mpr ⟨hc, hcand, hcdel⟩, rfl, hco⟩
      rw [applyAll_demoted s.now hpnd hdm]
      exact Or.inr ⟨rfl, rfl, hcdel⟩
  · -- c is a secondary of a candidate cluster
    have hnotdm := sec_not_demoted (e := e) (p := p) hwf hc hcp oldest.id
    obtain ⟨d, hd, hdid, hdprim, hddel, hdlid, hdpos⟩ := cand_is_primary_id hwf hlcand
    by_cases hlo : l = oldest.id
    · have huntouched : applyAll oldest.id s.now (primsOf s e p) c = c := by
        refine applyAll_untouched s.now hnotdm ?_
        intro q hq hqdm
        rw [hcl] at hq
        have hlq : l = q := by simpa using hq
        rw [← hlq, hlo] at hqdm
        exact absurd hqdm not_demotedIn_o
      rw [huntouched]
      exact Or.inr ⟨by rw [hcl, hlo], hcp, hcdel⟩
    · have hdm : demotedIn oldest.id (primsOf s e p) l := by
        refine ⟨d, mem_primsOf.mpr ⟨hd, hdid ▸ hlcand, hddel⟩, hdid, hlo⟩
      rw [applyAll_relinked (q := l) s.now hnotdm hcl hdm hcp hcdel]
      exact Or.inr ⟨rfl, hcp, hcdel⟩

/-- After a successful Resolve with both fields supplied, the returned
primary heads a cluster that contains every row matching the fragment,
and it knows both the submitted email and the submitted phone number. -/
theorem resolve_post {s s' : Store} {e p : Option String} {r : Response}
    (hwf : WFStore s) (hte : truthy e = true) (htp : truthy p = true)
    (h : identifyCore s e p = some (s', r)) :
    ∃ A ∈ s'.contacts, A.id = r.primaryContactId ∧ A.linkPrecedence = .primary ∧
      A.linkedId = none ∧ A.deletedAt = none ∧ 0 < A.id ∧
      (∀ c ∈ s'.contacts, matchFilter e p c = true → inCluster A c) ∧
      (∃ c ∈ s'.contacts, c.email = e ∧ inCluster A c) ∧
      (∃ c ∈ s'.contacts, c.phoneNumber = p ∧ inCluster A c) := by
  obtain ⟨hnd, hpos, hids, hdel, hprim, hsec⟩ := hwf
  have hwf' : WFStore s := ⟨hnd, hpos, hids, hdel, hprim, hsec⟩
  by_cases hne : identifyMatches s e p = []
  · have hsh := identifyCore_of_empty (s := s) (e := e) (p := p) hne
    rw [h] at hsh
    obtain ⟨hs', hr⟩ := Prod.mk.injEq .. ▸ Option.some.inj hsh.symm
    subst hs'
    refine ⟨⟨s.nextId, e, p, .primary, none, s.now, s.now, none⟩,
      List.mem_append.mpr (Or.inr (List.mem_singleton.mpr rfl)), ?_, rfl, rfl, rfl, hpos,
      ?_, ?_, ?_⟩
    · rw [← hr]
    · intro c hc hm
      rcases List.mem_append.mp hc with hcs | hcnew
      · exfalso
        have : c ∈ identifyMatches s e p := mem_identifyMatches.mpr ⟨hcs, hm⟩
        rw [hne] at this
        simp at this
      · simp only [List.mem_singleton] at hcnew
        exact Or.inl hcnew
    · exact ⟨_, List.mem_append.mpr (Or.inr (List.mem_singleton.mpr rfl)), rfl, Or.inl rfl⟩
    · exact ⟨_, List.mem_append.mpr (Or.inr (List.mem_singleton.mpr rfl)), rfl, Or.inl rfl⟩
  · obtain ⟨oldest, ho⟩ := oldestPrimaryOf_isSome (primsOf_nonempty hwf' hne)
    obtain ⟨fp, hfp, hfpid, hfpmem⟩ := find_fp_exists ho
    have hsh := identifyCore_of_nonempty hne ho hfp
    rw [h] at hsh
    obtain ⟨hs', hr⟩ := Prod.mk.injEq .. ▸ Option.some.inj hsh.symm
    subst hs'
    obtain ⟨hosc, hoprim, holid, hodel, hocand, hopos⟩ := oldest_spec hwf' ho
    have hpnd := primsOf_nodup (e := e) (p := p) hwf'
    have holdmem : oldest ∈ contactsAfter s e p oldest := oldest_mem_contactsAfter hwf' ho
    have hrid : oldest.id = r.primaryContactId := by rw [← hr]; rfl
    refine ⟨oldest, holdmem, hrid, hoprim, holid, hodel, hopos, ?_, ?_, ?_⟩
    · -- every row matching the fragment is in the canonical cluster
      intro c' hc' hm
      rcases mem_contactsAfter_iff.mp hc' with ⟨c, hc, hca⟩ | ⟨_, hrfl⟩
      · have hmc : matchFilter e p c = true := by
          rw [← matchFilter_applyAll e p oldest.id s.now (primsOf s e p) c, hca]
          exact hm
        have hcm : c ∈ identifyMatches s e p := mem_identifyMatches.mpr ⟨hc, hmc⟩
        have hcdel : c.deletedAt = none := hdel c hc
        rw [← hca]
        refine clustered_image hwf' ho hc ?_
        cases hcp : c.linkPrecedence with
        | primary =>
          exact Or.inl ⟨rfl, mem_candidateIds.mpr ⟨c, hcm, Or.inl ⟨hcp, rfl⟩⟩, hcdel⟩
        | secondary =>
          obtain ⟨d, hd, hdl, hdp⟩ := hsec c hc hcp
          have hdpos : 0 < d.id := (hids d hd).1
          exact Or.inr ⟨rfl, hcdel,
            d.id, hdl, mem_candidateIds.mpr ⟨c, hcm, Or.inr ⟨hcp, hdl, hdpos⟩⟩⟩
      · subst hrfl
        exact Or.inr ⟨rfl, rfl, rfl⟩
    · -- some cluster row carries the submitted email
      cases hcr : createdFlag s e p with
      | true =>
        refine ⟨⟨s.nextId, e, p, .secondary, some oldest.id, s.now, s.now, none⟩, ?_, rfl,
          Or.inr ⟨rfl, rfl, rfl⟩⟩
        exact mem_contactsAfter_iff.mpr (Or.inr ⟨hcr, rfl⟩)
      | false =>
        have hex : (truthy e && (clusterEmailsOf s e p).contains (e.getD ("")) &&
            (truthy p && (clusterPhonesOf s e p).contains (p.getD ("")))) = true := by
          have hcf := hcr
          unfold createdFlag at hcf
          simpa [Bool.not_eq_true'] using hcf
        obtain ⟨v, hev, hvne⟩ := truthy_iff.mp hte
        have hvmem : v ∈ clusterEmailsOf s e p := by
          have h1 : ((clusterEmailsOf s e p).contains (e.getD (""))) = true := by
            have := hex
            simp only [Bool.and_eq_true] at this
            exact this.1.2
          have h2 : e.getD ("") = v := by rw [hev]; rfl
          rw [h2] at h1
          simpa using h1
        have hsome : (some v : Option String) ∈
            ((primsOf s e p).map (·.email) ++ (secsOf s e p).map (·.email)) :=
          (mem_truthyList.mp hvmem).1
        rcases List.mem_append.mp hsome with hw | hw
        · obtain ⟨w, hwp, hwe⟩ := List.mem_map.mp hw
          have hwprops := primsOf_primary hwf' hwp
          have hws : w ∈ s.contacts := (mem_primsOf.mp hwp).1
          refine ⟨applyAll oldest.id s.now (primsOf s e p) w,
            mem_contactsAfter_of_merged (mem_mergeAll_iff.mpr ⟨w, hws, rfl⟩), ?_, ?_⟩
          · rw [applyAll_email, hwe, hev]
          · exact clustered_image hwf' ho hws
              (Or.inl ⟨hwprops.1, hwprops.2.2.2.1, hwprops.2.2.1⟩)
        · obtain ⟨w, hwp, hwe⟩ := List.mem_map.mp hw
          obtain ⟨hws, ⟨l, hwl, hlc⟩, hwsec, hwdel⟩ := mem_secsOf.mp hwp
          refine ⟨applyAll oldest.id s.now (primsOf s e p) w,
            mem_contactsAfter_of_merged (mem_mergeAll_iff.mpr ⟨w, hws, rfl⟩), ?_, ?_⟩
          · rw [applyAll_email, hwe, hev]
          · exact clustered_image hwf' ho hws (Or.inr ⟨hwsec, hwdel, l, hwl, hlc⟩)
    · -- some cluster row carries the submitted phone number
      cases hcr : createdFlag s e p with
      | true =>
        refine ⟨⟨s.nextId, e, p, .secondary, some oldest.id, s.now, s.now, none⟩, ?_, rfl,
          Or.inr ⟨rfl, rfl, rfl⟩⟩
        exact mem_contactsAfter_iff.mpr (Or.inr ⟨hcr, rfl⟩)
      | false =>
        have hex : (truthy e && (clusterEmailsOf s e p).contains (e.getD ("")) &&
            (truthy p && (clusterPhonesOf s e p).contains (p.getD ("")))) = true := by
          have hcf := hcr
          unfold createdFlag at hcf
          simpa [Bool.not_eq_true'] using hcf
        obtain ⟨v, hpv, hvne⟩ := truthy_iff.mp htp
        have hvmem : v ∈ clusterPhonesOf s e p := by
          have h1 : ((clusterPhonesOf s e p).contains (p.getD (""))) = true := by
            have := hex
            simp only [Bool.and_eq_true] at this
            exact this.2.2
          have h2 : p.getD ("") = v := by rw [hpv]; rfl
          rw [h2] at h1
          simpa using h1
        have hsome : (some v : Option String) ∈
            ((primsOf s e p).map (·.phoneNumber) ++ (secsOf s e p).map (·.phoneNumber)) :=
          (mem_truthyList.mp hvmem).1
        rcases List.mem_append.mp hsome with hw | hw
        · obtain ⟨w, hwp, hwe⟩ := List.mem_map.mp hw
          have hwprops := primsOf_primary hwf' hwp
          have hws : w ∈ s.contacts := (mem_primsOf.mp hwp).1
          refine ⟨applyAll oldest.id s.now (primsOf s e p) w,
            mem_contactsAfter_of_merged (mem_mergeAll_iff.mpr ⟨w, hws, rfl⟩), ?_, ?_⟩
          · rw [applyAll_phoneNumber, hwe, hpv]
          · exact clustered_image hwf' ho hws
              (Or.inl ⟨hwprops.1, hwprops.2.2.2.1, hwprops.2.2.1⟩)
        · obtain ⟨w, hwp, hwe⟩ := List.mem_map.mp hw
          obtain ⟨hws, ⟨l, hwl, hlc⟩, hwsec, hwdel⟩ := mem_secsOf.mp hwp
          refine ⟨applyAll oldest.id s.now (primsOf s e p) w,
            mem_contactsAfter_of_merged (mem_mergeAll_iff.mpr ⟨w, hws, rfl⟩), ?_, ?_⟩
          · rw [applyAll_phoneNumber, hwe, hpv]
          · exact clustered_image hwf' ho hws (Or.inr ⟨hwsec, hwdel, l, hwl, hlc⟩)

theorem filter_eq_singleton_of {α : Type} {l : List α} {pr : α → Bool} {a : α}
    (hnd : l.Nodup) (ha : a ∈ l) (hiff : ∀ x ∈ l, pr x = true ↔ x = a) :
    l.filter pr = [a] := by
  induction l with
  | nil => simp at ha
  | cons b t ih =>
    have hndt : t.Nodup := (List.nodup_cons.mp hnd).2
    by_cases hb : b = a
    · subst hb
      have hpb : pr b = true := (hiff b (List.mem_cons_self _ _)).mpr rfl
      rw [List.filter_cons, if_pos (by simpa using hpb)]
      have hrest : t.filter pr = [] := by
        rw [List.filter_eq_nil_iff]
        intro x hx hpx
        have : x = b := (hiff x (List.mem_cons_of_mem _ hx)).mp hpx
        subst this
        exact (List.nodup_cons.mp hnd).1 hx
      rw [hrest]
    · have hat : a ∈ t := by
        rcases List.mem_cons.mp ha with h1 | h1
        · exact absurd h1.symm hb
        · exact h1
      have hpb : pr b = false := by
        by_contra hc
        have : pr b = true := by
          cases hpbv : pr b
          · exact absurd hpbv hc
          · rfl
        exact hb ((hiff b (List.mem_cons_self _ _)).mp this)
      rw [List.filter_cons, if_neg (by simp [hpb])]
      exact ih hndt hat (fun x hx => hiff x (List.mem_cons_of_mem _ hx))

theorem applyAll_self_of_eq {o : Nat} (n : Nat) {A : Contact} (h : A.id = o) (c : Contact) :
    applyAll o n [A] c = c := by
  rw [applyAll_cons]
  have hb : (A.id == o) = true := by simpa using h
  rw [if_pos hb]
  rfl

theorem mergeAll_singleton {o : Nat} (n : Nat) {A : Contact} (h : A.id = o)
    (l : List Contact) : mergeAll o n [A] l = l := by
  unfold mergeAll
  calc l.map (applyAll o n [A])
      = l.map (fun c => c) := List.map_congr_left (fun c _ => applyAll_self_of_eq n h c)
    _ = l := by simp

theorem oldestPrimaryOf_singleton (A : Contact) : oldestPrimaryOf [A] = some A := by
  simp [oldestPrimaryOf, pickOlder]

/-- If the store already holds one consolidated cluster for the fragment
(the post-state of a Resolve of the same pair), resolving the pair again
changes nothing and answers with the same primary id. -/
theorem resolve_again {s₁ : Store} {e p : Option String} {A : Contact}
    (hwf : WFStore s₁) (hA : A ∈ s₁.contacts) (hAprim : A.linkPrecedence = .primary)
    (hApos : 0 < A.id)
    (hcover : ∀ c ∈ s₁.contacts, matchFilter e p c = true → inCluster A c)
    (hemail : ∃ c ∈ s₁.contacts, c.email = e ∧ inCluster A c)
    (hphone : ∃ c ∈ s₁.contacts, c.phoneNumber = p ∧ inCluster A c)
    (hte : truthy e = true) (htp : truthy p = true) :
    ∃ r₂, identifyCore s₁ e p = some (⟨s₁.contacts, s₁.nextId, s₁.now⟩, r₂) ∧
      r₂.primaryContactId = A.id := by
  obtain ⟨hnd, hpos, hids, hdel, hprim, hsec⟩ := hwf
  have hwf' : WFStore s₁ := ⟨hnd, hpos, hids, hdel, hprim, hsec⟩
  obtain ⟨w, hws, hwe, hwcl⟩ := hemail
  -- the email witness matches the fragment
  have hwm : matchFilter e p w = true := by
    rw [matchFilter_iff]
    exact ⟨hdel w hws, Or.inl ⟨hte, hwe⟩⟩
  have hwmem : w ∈ identifyMatches s₁ e p := mem_identifyMatches.mpr ⟨hws, hwm⟩
  have hne : identifyMatches s₁ e p ≠ [] := by
    intro hnil
    rw [hnil] at hwmem
    simp at hwmem
  -- the candidate set is exactly {A.id}
  have hcand_iff : ∀ x, x ∈ candOf s₁ e p ↔ x = A.id := by
    intro x
    constructor
    · intro hx
      rcases mem_candidateIds.mp hx with ⟨m, hm, hcase⟩
      obtain ⟨hms, hmf⟩ := mem_identifyMatches.mp hm
      rcases hcover m hms hmf with hmA | ⟨hml, hmsec, -⟩
      · subst hmA
        rcases hcase with ⟨-, hid⟩ | ⟨hsecm, -, -⟩
        · exact hid.symm
        · rw [hAprim] at hsecm
          simp at hsecm
      · rcases hcase with ⟨hprimm, -⟩ | ⟨-, hml', -⟩
        · rw [hmsec] at hprimm
          simp at hprimm
        · rw [hml] at hml'
          have : A.id = x := by simpa using hml'
          exact this.symm
    · intro hx
      subst hx
      rcases hwcl with hwA | ⟨hwl, hwsec, -⟩
      · subst hwA
        exact mem_candidateIds.mpr ⟨w, hwmem, Or.inl ⟨hAprim, rfl⟩⟩
      · exact mem_candidateIds.mpr ⟨w, hwmem, Or.inr ⟨hwsec, hwl, hApos⟩⟩
  -- the fetched primaries are exactly [A]
  have hprims : primsOf s₁ e p = [A] := by
    unfold primsOf
    refine filter_eq_singleton_of (hnd.of_map _) hA ?_
    intro x hx
    constructor
    · intro hpx
      simp only [Bool.and_eq_true] at hpx
      have hxid : x.id ∈ candOf s₁ e p := by simpa using hpx.1
      have : x.id = A.id := (hcand_iff x.id).mp hxid
      exact wf_id_inj hwf' hx hA this
    · intro hxa
      subst hxa
      have : x.id ∈ candOf s₁ e p := (hcand_iff x.id).mpr rfl
      simp only [Bool.and_eq_true]
      exact ⟨by simpa using this, by simp [hdel x hx]⟩
  have ho : oldestPrimaryOf (primsOf s₁ e p) = some A := by
    rw [hprims, oldestPrimaryOf_singleton]
  -- the novelty check finds both fields known
  have hsecsA : ∀ c ∈ s₁.contacts, c.linkedId = some A.id → c.linkPrecedence = .secondary →
      c ∈ secsOf s₁ e p := by
    intro c hc hcl hcp
    exact mem_secsOf.mpr ⟨hc, ⟨A.id, hcl, (hcand_iff A.id).mpr rfl⟩, hcp, hdel c hc⟩
  obtain ⟨ve, heve, hvene⟩ := truthy_iff.mp hte
  have hce : (clusterEmailsOf s₁ e p).contains (e.getD ("")) = true := by
    have hveq : e.getD ("") = ve := by rw [heve]; rfl
    rw [hveq]
    have hvmem : ve ∈ clusterEmailsOf s₁ e p := by
      rw [clusterEmailsOf, mem_truthyList]
      refine ⟨?_, hvene⟩
      rcases hwcl with hwA | ⟨hwl, hwsec, -⟩
      · subst hwA
        refine List.mem_append.mpr (Or.inl ?_)
        rw [hprims]
        exact List.mem_map.mpr ⟨w, List.mem_singleton.mpr rfl, by rw [hwe, heve]⟩
      · refine List.mem_append.mpr (Or.inr ?_)
        exact List.mem_map.mpr ⟨w, hsecsA w hws hwl hwsec, by rw [hwe, heve]⟩
    simpa using hvmem
  obtain ⟨w2, hw2s, hw2p, hw2cl⟩ := hphone
  obtain ⟨vp, hpvp, hvpne⟩ := truthy_iff.mp htp
  have hcp2 : (clusterPhonesOf s₁ e p).contains (p.getD ("")) = true := by
    have hveq : p.getD ("") = vp := by rw [hpvp]; rfl
    rw [hveq]
    have hvmem : vp ∈ clusterPhonesOf s₁ e p := by
      rw [clusterPhonesOf, mem_truthyList]
      refine ⟨?_, hvpne⟩
      rcases hw2cl with hwA | ⟨hwl, hwsec, -⟩
      · subst hwA
        refine List.mem_append.mpr (Or.inl ?_)
        rw [hprims]
        exact List.mem_map.mpr ⟨w2, List.mem_singleton.mpr rfl, by rw [hw2p, hpvp]⟩
      · refine List.mem_append.mpr (Or.inr ?_)
        exact List.mem_map.mpr ⟨w2, hsecsA w2 hw2s hwl hwsec, by rw [hw2p, hpvp]⟩
    simpa using hvmem
  have hcr : createdFlag s₁ e p = false := by
    have hce' : e.getD ("") ∈ clusterEmailsOf s₁ e p := by simpa using hce
    have hcp2' : p.getD ("") ∈ clusterPhonesOf s₁ e p := by simpa using hcp2
    unfold createdFlag
    simp [hte, htp, hce', hcp2']
  have hca : contactsAfter s₁ e p A = s₁.contacts := by
    unfold contactsAfter
    rw [if_neg (by simp [hcr]), hprims, mergeAll_singleton s₁.now rfl]
  obtain ⟨fp, hfp, hfpid, hfpmem⟩ := find_fp_exists ho
  have hresult := identifyCore_of_nonempty hne ho hfp
  refine ⟨buildResponse A.id fp (finalSecondariesOf (contactsAfter s₁ e p A) A.id), ?_, rfl⟩
  rw [hresult]
  congr 1
  rw [Prod.mk.injEq]
  constructor
  · rw [Store.mk.injEq]
    refine ⟨hca, ?_, ?_⟩
    · rw [hcr]; simp
    · rw [hcr]; simp
  · rfl

instance wfStoreDecidable (s : Store) : Decidable (WFStore s) := by
  unfold WFStore
  infer_instance

/-! ## Claims -/

/-- Claim C2: after every Resolve, in every reachable store state, every
non-deleted contact with `linkPrecedence = secondary` has a `linkedId`
referencing a contact whose own `linkPrecedence = primary` — a secondary
never points at another secondary, all links are one hop. -/
theorem c2_flattened_links {s : Store} (hreach : Reachable s) :
    ∀ c ∈ s.contacts, c.linkPrecedence = .secondary → c.deletedAt = none →
      ∃ d ∈ s.contacts, c.linkedId = some d.id ∧ d.linkPrecedence = .primary := by
  intro c hc hcp _
  obtain ⟨-, -, -, -, -, hsec⟩ := reachable_wf hreach
  exact hsec c hc hcp

def c2StoreA : Store :=
  ⟨[⟨1, some ("a@x.com"), some ("111"), .primary, none, 0, 0, none⟩], 2, 1⟩

def c2StoreB : Store :=
  ⟨[⟨1, some ("a@x.com"), some ("111"), .primary, none, 0, 0, none⟩,
    ⟨2, some ("b@x.com"), some ("111"), .secondary, some 1, 1, 1, none⟩], 3, 2⟩

theorem c2_flattened_links_witness :
    ∃ d ∈ c2StoreB.contacts,
      (⟨2, some ("b@x.com"), some ("111"), .secondary, some 1, 1, 1, none⟩ : Contact).linkedId
          = some d.id ∧ d.linkPrecedence = .primary :=
  c2_flattened_links
    (Reachable.step
      (Reachable.step Reachable.init
        (by decide : identifyCore ⟨[], 1, 0⟩ (some ("a@x.com")) (some ("111")) =
          some (c2StoreA, ⟨1, [("a@x.com")], [("111")], []⟩)))
      (by decide : identifyCore c2StoreA (some ("b@x.com")) (some ("111")) =
        some (c2StoreB, ⟨1, [("a@x.com"), ("b@x.com")], [("111")], [2]⟩)))
    _ (by decide) (by decide) (by decide)

/-- Claim C4: resolving the same (email, phoneNumber) pair twice in
sequence returns the same primaryContactId both times, and the second call
inserts zero new rows (the whole contact table is unchanged); in
particular, when the exact pair already exists verbatim in the cluster,
nothing is created. -/
theorem c4_resolve_idempotent {s : Store} {e p : String} (hwf : WFStore s)
    (he : e ≠ "") (hp : p ≠ "") :
    ∃ s₁ r₁ s₂ r₂,
      identifyCore s (some e) (some p) = some (s₁, r₁) ∧
      identifyCore s₁ (some e) (some p) = some (s₂, r₂) ∧
      r₂.primaryContactId = r₁.primaryContactId ∧
      s₂.contacts = s₁.contacts := by
  have hte : truthy (some e) = true := truthy_some he
  have htp : truthy (some p) = true := truthy_some hp
  obtain ⟨s₁, r₁, h1⟩ := identifyCore_some (some e) (some p) hwf
  have hwf₁ := wf_preserved hwf h1
  obtain ⟨A, hA, hAid, hAprim, hAlid, hAdel, hApos, hcover, hemail, hphone⟩ :=
    resolve_post hwf hte htp h1
  obtain ⟨r₂, h2, hr2⟩ := resolve_again hwf₁ hA hAprim hApos hcover hemail hphone hte htp
  exact ⟨s₁, r₁, _, r₂, h1, h2, by rw [hr2, hAid], rfl⟩

def c4Store : Store :=
  ⟨[⟨1, some ("a@x.com"), some ("111"), .primary, none, 0, 0, none⟩], 2, 1⟩

theorem c4_resolve_idempotent_witness :
    ∃ s₁ r₁ s₂ r₂,
      identifyCore c4Store (some ("a@x.com")) (some ("111")) = some (s₁, r₁) ∧
      identifyCore s₁ (some ("a@x.com")) (some ("111")) = some (s₂, r₂) ∧
      r₂.primaryContactId = r₁.primaryContactId ∧
      s₂.contacts = s₁.contacts :=
  c4_resolve_idempotent (by decide) (by decide) (by decide)

/-- Claim C3 (code bug): on a store holding the single primary
(a@x.com, 111), the fragment carrying only the known phone number 111
makes the main handler insert a second contact row — its novelty
condition `!(emailExists && phoneExists)` fires whenever one field is
absent — although the response still carries the cluster's full known
emails and phone numbers, and although the exact-pair variant of the
novelty check (part_006) correctly creates nothing on this input. -/
theorem c3_partial_fragment_bug :
    (identifyCore ⟨[⟨1, some ("a@x.com"), some ("111"), .primary, none, 0, 0, none⟩], 2, 1⟩
        none (some ("111"))).map
        (fun x => (x.1.contacts.length, x.2.emails, x.2.phoneNumbers)) =
      some (2, [("a@x.com")], [("111")]) ∧
    p6CreatesSecondary [⟨1, some ("a@x.com"), some ("111"), .primary, none, 0, 0, none⟩]
      none (some ("111")) = false := by decide

/-- Inverting a successful Resolve whose match set was empty. -/
theorem identifyCore_empty_inv {s s' : Store} {e p : Option String} {r : Response}
    (hne : identifyMatches s e p = []) (h : identifyCore s e p = some (s', r)) :
    s' = ⟨s.contacts ++ [⟨s.nextId, e, p, .primary, none, s.now, s.now, none⟩],
          s.nextId + 1, s.now + 1⟩ ∧
    r = ⟨s.nextId, truthyList [e], truthyList [p], []⟩ := by
  have hsh := identifyCore_of_empty (s := s) (e := e) (p := p) hne
  have hx := Option.some.inj (hsh.symm.trans h)
  exact ⟨(congrArg Prod.fst hx).symm, (congrArg Prod.snd hx).symm⟩

/-- Inverting a successful Resolve whose match set was nonempty. -/
theorem identifyCore_nonempty_inv {s s' : Store} {e p : Option String} {r : Response}
    (hne : identifyMatches s e p ≠ []) (h : identifyCore s e p = some (s', r)) :
    ∃ oldest fp, oldestPrimaryOf (primsOf s e p) = some oldest ∧
      (contactsAfter s e p oldest).find? (fun c => c.id == oldest.id) = some fp ∧
      s' = ⟨contactsAfter s e p oldest,
            if createdFlag s e p then s.nextId + 1 else s.nextId,
            if createdFlag s e p then s.now + 1 else s.now⟩ ∧
      r = buildResponse oldest.id fp
            (finalSecondariesOf (contactsAfter s e p oldest) oldest.id) := by
  have hb : (identifyMatches s e p).isEmpty = false := by
    rw [← Bool.not_eq_true, List.isEmpty_iff]
    exact hne
  rw [identifyCore] at h
  rw [hb] at h
  simp only [Bool.false_eq_true, if_false] at h
  cases ho : oldestPrimaryOf (primsOf s e p) with
  | none => rw [ho] at h; simp at h
  | some oldest =>
    rw [ho] at h
    dsimp only at h
    cases hfp : (contactsAfter s e p oldest).find? (fun c => c.id == oldest.id) with
    | none => rw [hfp] at h; simp at h
    | some fp =>
      rw [hfp] at h
      dsimp only at h
      have hx := Option.some.inj h
      exact ⟨oldest, fp, rfl, hfp, (congrArg Prod.fst hx).symm, (congrArg Prod.snd hx).symm⟩

/-- Claim C10: whenever a Resolve call creates a row, the created row
stores the full submitted fragment — both the email and the phoneNumber
exactly as given, even when one of the values already exists on another
row of the cluster.  (Any row of the post-state whose id did not exist in
the pre-state is such a created row.) -/
theorem c10_full_fragment_stored {s s' : Store} {e p : Option String} {r : Response}
    (h : identifyCore s e p = some (s', r)) :
    ∀ c ∈ s'.contacts, (∀ d ∈ s.contacts, d.id ≠ c.id) →
      c.email = e ∧ c.phoneNumber = p := by
  intro c hc hnew
  by_cases hne : identifyMatches s e p = []
  · obtain ⟨hs', -⟩ := identifyCore_empty_inv hne h
    rw [hs'] at hc
    rcases List.mem_append.mp hc with hcs | hcnew
    · exact absurd rfl (hnew c hcs)
    · simp only [List.mem_singleton] at hcnew
      subst hcnew
      exact ⟨rfl, rfl⟩
  · obtain ⟨oldest, fp, ho, hfp, hs', -⟩ := identifyCore_nonempty_inv hne h
    rw [hs'] at hc
    rcases mem_contactsAfter_iff.mp hc with ⟨c₀, hc₀, hca⟩ | ⟨-, hrfl⟩
    · exfalso
      have hcid : c₀.id = c.id := by rw [← hca, applyAll_id]
      exact hnew c₀ hc₀ hcid
    · subst hrfl
      exact ⟨rfl, rfl⟩

def c10Store : Store :=
  ⟨[⟨1, some ("a@x.com"), some ("111"), .primary, none, 5, 5, none⟩], 2, 6⟩

def c10Store' : Store :=
  ⟨[⟨1, some ("a@x.com"), some ("111"), .primary, none, 5, 5, none⟩,
    ⟨2, some ("b@x.com"), some ("111"), .secondary, some 1, 6, 6, none⟩], 3, 7⟩

theorem c10_full_fragment_stored_witness :
    (⟨2, some ("b@x.com"), some ("111"), .secondary, some 1, 6, 6, none⟩ : Contact).email
        = some ("b@x.com") ∧
    (⟨2, some ("b@x.com"), some ("111"), .secondary, some 1, 6, 6, none⟩ : Contact).phoneNumber
        = some ("111") :=
  c10_full_fragment_stored
    (by decide : identifyCore c10Store (some ("b@x.com")) (some ("111")) =
      some (c10Store', ⟨1, [("a@x.com"), ("b@x.com")], [("111")], [2]⟩))
    _ (by decide) (by decide)

/-- Claim C8 (counterexample): with a store that reports a serialization
conflict on the first attempt and would commit on a retry, the route
surfaces an internal error at once — the claimed retry of the whole
Resolve sequence never happens, while the spec's retry loop would have
succeeded within its budget. -/
theorem c8_retry_counterexample :
    identifySingleAttempt
        (fun k => if k == 0 then TxOutcome.conflict else TxOutcome.committed ⟨1, [], [], []⟩) =
      TxResult.internalError ∧
    resolveWithRetrySpec 2
        (fun k => if k == 0 then TxOutcome.conflict else TxOutcome.committed ⟨1, [], [], []⟩) 0 =
      TxResult.success ⟨1, [], [], []⟩ := by
  exact ⟨rfl, rfl⟩

/-- Claim C8 (amended): the route makes exactly one transaction attempt —
its `try { ... } catch` returns a success only when attempt 0 commits, and
surfaces any store error (conflict included) as an immediate internal
error with no retry. -/
theorem c8_no_retry_amended (attempts : Nat → TxOutcome) :
    (∀ r, identifySingleAttempt attempts = TxResult.success r ↔
      attempts 0 = TxOutcome.committed r) ∧
    (attempts 0 = TxOutcome.conflict →
      identifySingleAttempt attempts = TxResult.internalError) := by
  constructor
  · intro r
    cases ha : attempts 0 <;> simp [identifySingleAttempt, ha]
  · intro h
    simp [identifySingleAttempt, h]

theorem c8_no_retry_witness :
    identifySingleAttempt (fun _ => TxOutcome.conflict) = TxResult.internalError :=
  (c8_no_retry_amended (fun _ => TxOutcome.conflict)).2 rfl

/-- Claim C7 (counterexample): on a store holding one row with a NULL
email, a request carrying only an unknown phone number should match
nothing, but the second variant's match step (`{ email: email || null }`)
returns that row — the absent email matched the NULL column.  The main
handler's match step returns the empty set, as the claim states. -/
theorem c7_match_step_counterexample :
    v2Matches ⟨[⟨1, none, some ("123"), .primary, none, 0, 0, none⟩], 2, 1⟩ none
        (some ("999")) =
      [⟨1, none, some ("123"), .primary, none, 0, 0, none⟩] ∧
    identifyMatches ⟨[⟨1, none, some ("123"), .primary, none, 0, 0, none⟩], 2, 1⟩ none
        (some ("999")) = [] := by
  exact ⟨rfl, rfl⟩

/-- Claim C7 (amended): the main handler's match step returns exactly the
non-deleted rows whose email equals a supplied (truthy) email or whose
phone equals a supplied phone — an absent field contributes no matches
and never matches NULL columns; but the variants that build the query
with `email || null` / `phoneNumber || null` (the second identify.js
variant and part_002) additionally match every non-deleted row whose
column is NULL when the corresponding field is absent. -/
theorem c7_match_step_amended :
    (∀ (s : Store) (e p : Option String) (c : Contact),
      c ∈ identifyMatches s e p ↔ c ∈ s.contacts ∧ c.deletedAt = none ∧
        ((truthy e = true ∧ c.email = e) ∨ (truthy p = true ∧ c.phoneNumber = p))) ∧
    (∀ (s : Store) (p : Option String) (c : Contact), c ∈ s.contacts →
      c.deletedAt = none → c.email = none → c ∈ v2Matches s none p) := by
  constructor
  · intro s e p c
    rw [mem_identifyMatches, matchFilter_iff]
  · intro s p c hc hdel hemail
    rw [v2Matches, List.mem_filter]
    refine ⟨hc, ?_⟩
    simp [v2MatchFilter, orNull, truthy, hdel, hemail]

theorem c7_match_step_witness :
    (⟨1, none, some ("123"), .primary, none, 0, 0, none⟩ : Contact) ∈
      v2Matches ⟨[⟨1, none, some ("123"), .primary, none, 0, 0, none⟩], 2, 1⟩ none
        (some ("999")) :=
  c7_match_step_amended.2 ⟨[⟨1, none, some ("123"), .primary, none, 0, 0, none⟩], 2, 1⟩
    (some ("999")) ⟨1, none, some ("123"), .primary, none, 0, 0, none⟩
    (by decide) (by decide) (by decide)

/-- Claim C6 (counterexample): the in-memory variant (part_001) answers a
successful Resolve with a `contact` object whose first key is the
misspelled `primaryContatctId`, not the claimed `primaryContactId` (the
second identify.js variant spells it the same way). -/
theorem c6_response_fields_counterexample :
    (routerMemPost ⟨[], 1, 0⟩ (some ("a@x.com")) (some ("111"))).2 =
      HttpOut.success
        [(("primaryContatctId"), JValue.jnum 1),
         (("emails"), JValue.jarrS [("a@x.com")]),
         (("phoneNumbers"), JValue.jarrS [("111")]),
         (("secondaryContactIds"), JValue.jarrN [])] ∧
    (("primaryContatctId") : String) ≠ ("primaryContactId") := by
  exact ⟨rfl, by decide⟩

/-- Claim C6 (amended): the main handler's successful response carries
exactly the four fields primaryContactId (an integer), emails (an array
of strings), phoneNumbers (an array of strings) and secondaryContactIds
(an array of integers), under exactly those names; the in-memory variant
(part_001), like the second identify.js variant, instead spells the first
key `primaryContatctId`. -/
theorem c6_response_fields_amended :
    (∀ (s s' : Store) (e p : Option String) (j : List (String × JValue)),
      identifyTotal s e p = (s', HttpOut.success j) →
      j.map Prod.fst =
        [("primaryContactId"), ("emails"), ("phoneNumbers"), ("secondaryContactIds")]) ∧
    (∀ (st st' : Store) (e p : Option String) (j : List (String × JValue)),
      routerMemPost st e p = (st', HttpOut.success j) →
      j.map Prod.fst =
        [("primaryContatctId"), ("emails"), ("phoneNumbers"), ("secondaryContactIds")]) := by
  constructor
  · intro s s' e p j h
    unfold identifyTotal at h
    split at h
    · injection h with h1 h2
      injection h2
    · split at h
      · injection h with h1 h2
        injection h2 with hj
        rw [← hj]
        rfl
      · injection h with h1 h2
        injection h2
  · intro st st' e p j h
    unfold routerMemPost at h
    split at h
    · injection h with h1 h2
      injection h2
    · dsimp only at h
      split at h
      · injection h with h1 h2
        injection h2 with hj
        rw [← hj]
        rfl
      · split at h
        · injection h with h1 h2
          injection h2
        · injection h with h1 h2
          injection h2 with hj
          rw [← hj]
          rfl

theorem c6_response_fields_witness :
    ([(("primaryContactId"), JValue.jnum 1),
      (("emails"), JValue.jarrS [("a@x.com")]),
      (("phoneNumbers"), JValue.jarrS [("111")]),
      (("secondaryContactIds"), JValue.jarrN [])].map Prod.fst =
        [("primaryContactId"), ("emails"), ("phoneNumbers"), ("secondaryContactIds")]) ∧
    ([(("primaryContatctId"), JValue.jnum 1),
      (("emails"), JValue.jarrS [("a@x.com")]),
      (("phoneNumbers"), JValue.jarrS [("111")]),
      (("secondaryContactIds"), JValue.jarrN [])].map Prod.fst =
        [("primaryContatctId"), ("emails"), ("phoneNumbers"), ("secondaryContactIds")]) :=
  ⟨c6_response_fields_amended.1 ⟨[], 1, 0⟩
      ⟨[⟨1, some ("a@x.com"), some ("111"), .primary, none, 0, 0, none⟩], 2, 1⟩
      (some ("a@x.com")) (some ("111")) _ (by decide),
   c6_response_fields_amended.2 ⟨[], 1, 0⟩
      ⟨[⟨1, some ("a@x.com"), some ("111"), .primary, none, 0, 0, none⟩], 2, 1⟩
      (some ("a@x.com")) (some ("111")) _ (by decide)⟩

/-- Claim C9 (counterexample): a request with a present (but malformed)
email and a valid phone number is rejected with a 400 by the handler's
own validation block — it does not proceed to resolution, contradicting
both "performs no syntax or shape re-validation" and "rejects exactly
when both fields are absent". -/
theorem c9_validation_counterexample :
    identifyTotal ⟨[], 1, 0⟩ (some ("invalid-email")) (some ("123456")) =
      (⟨[], 1, 0⟩, HttpOut.badRequest ("Invalid email format")) ∧
    truthy (some ("invalid-email")) = true := by decide

theorem identifyTotal_badRequest_iff (s : Store) (e p : Option String) :
    (∃ m, (identifyTotal s e p).2 = HttpOut.badRequest m) ↔ validateV1 e p ≠ none := by
  unfold identifyTotal
  cases hv : validateV1 e p with
  | some m =>
    simp only [ne_eq]
    constructor
    · intro _
      simp
    · intro _
      exact ⟨m, rfl⟩
  | none =>
    simp only [ne_eq, not_true_eq_false, iff_false, not_exists]
    intro m
    cases hcore : identifyCore s e p with
    | none => simp
    | some x =>
      cases x with
      | mk s' r => simp

theorem validateV1_ne_none_iff (e p : Option String) :
    validateV1 e p ≠ none ↔
      ((truthy e = false ∧ truthy p = false) ∨
       (truthy e = true ∧ emailRegexTest (e.getD ("")) = false) ∨
       (truthy p = true ∧ phoneRegexTest (p.getD ("")) = false) ∨
       (truthy p = true ∧ 20 < (p.getD ("")).length)) := by
  unfold validateV1
  split_ifs with h1 h2 h3 h4
  · constructor
    · intro _
      simp only [Bool.and_eq_true, Bool.not_eq_true'] at h1
      exact Or.inl h1
    · intro _
      simp
  · constructor
    · intro _
      simp only [Bool.and_eq_true, Bool.not_eq_true'] at h2
      exact Or.inr (Or.inl h2)
    · intro _
      simp
  · constructor
    · intro _
      simp only [Bool.and_eq_true, Bool.not_eq_true'] at h3
      exact Or.inr (Or.inr (Or.inl h3))
    · intro _
      simp
  · constructor
    · intro _
      simp only [Bool.and_eq_true, decide_eq_true_eq] at h4
      exact Or.inr (Or.inr (Or.inr h4))
    · intro _
      simp
  · simp only [ne_eq, not_true_eq_false, false_iff]
    rintro (⟨he, hp⟩ | ⟨he, hr⟩ | ⟨hp, hr⟩ | ⟨hp, hl⟩)
    · exact h1 (by simp [he, hp])
    · exact h2 (by simp [he, hr])
    · exact h3 (by simp [hp, hr])
    · exact h4 (by simp [hp, hl])

/-- Claim C9 (amended): the handler rejects with a 400 exactly when both
fields are absent (falsy), OR a present email fails the email regex, OR a
present phone number fails the numeric regex or exceeds 20 characters —
so it does re-validate shape; every 400 (the both-absent rejection
included) happens before resolution and leaves the store untouched, and
requests passing all checks proceed to resolution. -/
theorem c9_validation_amended (s : Store) (e p : Option String) :
    ((∃ m, (identifyTotal s e p).2 = HttpOut.badRequest m) ↔
      ((truthy e = false ∧ truthy p = false) ∨
       (truthy e = true ∧ emailRegexTest (e.getD ("")) = false) ∨
       (truthy p = true ∧ phoneRegexTest (p.getD ("")) = false) ∨
       (truthy p = true ∧ 20 < (p.getD ("")).length))) ∧
    (∀ m, (identifyTotal s e p).2 = HttpOut.badRequest m → (identifyTotal s e p).1 = s) := by
  constructor
  · rw [identifyTotal_badRequest_iff]
    exact validateV1_ne_none_iff e p
  · intro m hm
    unfold identifyTotal at hm ⊢
    cases hv : validateV1 e p with
    | some m' => rfl
    | none =>
      rw [hv] at hm
      exfalso
      cases hcore : identifyCore s e p with
      | none =>
        rw [hcore] at hm
        simp at hm
      | some x =>
        cases x with
        | mk s2 r =>
          rw [hcore] at hm
          simp at hm

theorem c9_validation_witness :
    (identifyTotal ⟨[], 2, 5⟩ (some ("invalid-email")) (some ("123456"))).1 = ⟨[], 2, 5⟩ :=
  (c9_validation_amended ⟨[], 2, 5⟩ (some ("invalid-email")) (some ("123456"))).2
    ("Invalid email format") (by decide)

/-- A stored optional string that is not the empty string (a syntactically
validated value or NULL). -/
def okStr (o : Option String) : Prop := o ≠ some ("")

instance okStrDecidable (o : Option String) : Decidable (okStr o) := by
  unfold okStr
  infer_instance

theorem okStr_ne {o : Option String} {v : String} (hok : okStr o) (h : o = some v) :
    v ≠ "" := by
  intro hv
  rw [hv] at h
  exact hok h

theorem dedupAux_subset [DecidableEq α] {l : List α} :
    ∀ {seen : List α} {x : α}, x ∈ dedupAux seen l → x ∈ l := by
  induction l with
  | nil => intro seen x h; simp [dedupAux] at h
  | cons y ys ih =>
    intro seen x h
    by_cases hy : seen.contains y
    · simp only [dedupAux, hy, if_true] at h
      exact List.mem_cons_of_mem _ (ih h)
    · simp only [dedupAux, hy, Bool.false_eq_true, if_false, List.mem_cons] at h
      rcases h with rfl | h
      · exact List.mem_cons_self _ _
      · exact List.mem_cons_of_mem _ (ih h)

theorem mem_dedupKeepFirst [DecidableEq α] {l : List α} {x : α}
    (h : x ∈ dedupKeepFirst l) : x ∈ l :=
  dedupAux_subset h

theorem nodup_truthyList_single (o : Option String) : (truthyList [o]).Nodup := by
  cases o with
  | none => rw [truthyList_cons_none]; exact List.nodup_nil
  | some v =>
    by_cases hv : v = ""
    · subst hv
      simp [truthyList, List.filterMap_cons, truthyVal, truthy]
    · rw [truthyList_cons_some hv]
      simp [truthyList]

theorem contactsAfter_ok {s : Store} {e p : Option String} {oldest : Contact}
    (hsok : ∀ c ∈ s.contacts, okStr c.email ∧ okStr c.phoneNumber)
    (heok : okStr e) (hpok : okStr p) :
    ∀ c' ∈ contactsAfter s e p oldest, okStr c'.email ∧ okStr c'.phoneNumber := by
  intro c' hc'
  rcases mem_contactsAfter_iff.mp hc' with ⟨c, hc, hca⟩ | ⟨-, hrfl⟩
  · have he : c'.email = c.email := by rw [← hca, applyAll_email]
    have hp : c'.phoneNumber = c.phoneNumber := by rw [← hca, applyAll_phoneNumber]
    rw [he, hp]
    exact hsok c hc
  · subst hrfl
    exact ⟨heok, hpok⟩

/-- Claim C5: in every successful response, the canonical primary's own
email appears first in `emails` and its own phone number first in
`phoneNumbers` whenever they are non-null, both arrays are free of
duplicates (and of nulls/empties by construction), and
`secondaryContactIds` is sorted ascending.  (Stored values and inputs are
assumed to be validated values or NULL, i.e. never the empty string.) -/
theorem c5_projection_ordering {s s' : Store} {e p : Option String} {r : Response}
    (hsok : ∀ c ∈ s.contacts, okStr c.email ∧ okStr c.phoneNumber)
    (heok : okStr e) (hpok : okStr p)
    (h : identifyCore s e p = some (s', r)) :
    (∃ c ∈ s'.contacts, c.id = r.primaryContactId ∧
      (∀ v, c.email = some v → r.emails.head? = some v) ∧
      (∀ v, c.phoneNumber = some v → r.phoneNumbers.head? = some v)) ∧
    r.emails.Nodup ∧ r.phoneNumbers.Nodup ∧
    (∀ v ∈ r.emails, v ≠ "") ∧ (∀ v ∈ r.phoneNumbers, v ≠ "") ∧
    List.Sorted (· ≤ ·) r.secondaryContactIds := by
  by_cases hne : identifyMatches s e p = []
  · obtain ⟨hs', hr⟩ := identifyCore_empty_inv hne h
    subst hs'
    subst hr
    refine ⟨⟨⟨s.nextId, e, p, .primary, none, s.now, s.now, none⟩,
      List.mem_append.mpr (Or.inr (List.mem_singleton.mpr rfl)), rfl, ?_, ?_⟩,
      nodup_truthyList_single e, nodup_truthyList_single p, ?_, ?_, List.sorted_nil⟩
    · intro v hv
      dsimp only at hv
      have hvne : v ≠ "" := okStr_ne heok hv
      rw [hv, truthyList_cons_some hvne]
      rfl
    · intro v hv
      dsimp only at hv
      have hvne : v ≠ "" := okStr_ne hpok hv
      rw [hv, truthyList_cons_some hvne]
      rfl
    · intro v hv
      exact (mem_truthyList.mp hv).2
    · intro v hv
      exact (mem_truthyList.mp hv).2
  · obtain ⟨oldest, fp, ho, hfp, hs', hr⟩ := identifyCore_nonempty_inv hne h
    have hfpmem : fp ∈ contactsAfter s e p oldest := List.mem_of_find?_eq_some hfp
    have hfpid : fp.id = oldest.id := by
      have := List.find?_some hfp
      simpa using this
    have hfpok := contactsAfter_ok hsok heok hpok fp hfpmem
    subst hs'
    subst hr
    refine ⟨⟨fp, hfpmem, hfpid, ?_, ?_⟩,
      dedupKeepFirst_nodup _, dedupKeepFirst_nodup _, ?_, ?_, ?_⟩
    · intro v hv
      have hvne : v ≠ "" := okStr_ne hfpok.1 hv
      show (dedupKeepFirst (truthyList (fp.email ::
        (finalSecondariesOf (contactsAfter s e p oldest) oldest.id).map (·.email)))).head?
          = some v
      rw [hv, truthyList_cons_some hvne, dedupKeepFirst_cons]
      rfl
    · intro v hv
      have hvne : v ≠ "" := okStr_ne hfpok.2 hv
      show (dedupKeepFirst (truthyList (fp.phoneNumber ::
        (finalSecondariesOf (contactsAfter s e p oldest) oldest.id).map
          (·.phoneNumber)))).head? = some v
      rw [hv, truthyList_cons_some hvne, dedupKeepFirst_cons]
      rfl
    · intro v hv
      exact (mem_truthyList.mp (mem_dedupKeepFirst hv)).2
    · intro v hv
      exact (mem_truthyList.mp (mem_dedupKeepFirst hv)).2
    · exact List.sorted_insertionSort _ _

def c5Store : Store :=
  ⟨[⟨1, some ("a@x.com"), some ("111"), .primary, none, 0, 0, none⟩], 2, 1⟩

def c5Store' : Store :=
  ⟨[⟨1, some ("a@x.com"), some ("111"), .primary, none, 0, 0, none⟩,
    ⟨2, some ("b@x.com"), some ("111"), .secondary, some 1, 1, 1, none⟩], 3, 2⟩

theorem c5_projection_ordering_witness :
    (∃ c ∈ c5Store'.contacts,
      c.id = (⟨1, [("a@x.com"), ("b@x.com")], [("111")], [2]⟩ : Response).primaryContactId ∧
      (∀ v, c.email = some v →
        (⟨1, [("a@x.com"), ("b@x.com")], [("111")], [2]⟩ : Response).emails.head? = some v) ∧
      (∀ v, c.phoneNumber = some v →
        (⟨1, [("a@x.com"), ("b@x.com")], [("111")], [2]⟩ : Response).phoneNumbers.head?
          = some v)) ∧
    (⟨1, [("a@x.com"), ("b@x.com")], [("111")], [2]⟩ : Response).emails.Nodup ∧
    (⟨1, [("a@x.com"), ("b@x.com")], [("111")], [2]⟩ : Response).phoneNumbers.Nodup ∧
    (∀ v ∈ (⟨1, [("a@x.com"), ("b@x.com")], [("111")], [2]⟩ : Response).emails, v ≠ "") ∧
    (∀ v ∈ (⟨1, [("a@x.com"), ("b@x.com")], [("111")], [2]⟩ : Response).phoneNumbers, v ≠ "") ∧
    List.Sorted (· ≤ ·)
      (⟨1, [("a@x.com"), ("b@x.com")], [("111")], [2]⟩ : Response).secondaryContactIds :=
  c5_projection_ordering (by decide) (by decide) (by decide)
    (by decide : identifyCore c5Store (some ("b@x.com")) (some ("111")) =
      some (c5Store', ⟨1, [("a@x.com"), ("b@x.com")], [("111")], [2]⟩))

/-- Claim C1: for a store containing two primaries A and B heading
separate clusters with A created earlier, a single Resolve request whose
match set touches both clusters (one identifying field matching A's
cluster, the other matching B's — the hypotheses are symmetric in the two
fields) demotes B to a secondary linked to A, rewrites the `linkedId` of
every contact previously linked to B to A.id, and answers with
`primaryContactId = A.id`. -/
theorem c1_merge_symmetry {s : Store} {e p : Option String} {A B : Contact}
    (hwf : WFStore s) (hA : A ∈ s.contacts) (hB : B ∈ s.contacts)
    (hAp : A.linkPrecedence = .primary) (hBp : B.linkPrecedence = .primary)
    (hAB : A.createdAt < B.createdAt)
    (hcover : ∀ c ∈ s.contacts, matchFilter e p c = true →
      (c = A ∨ c.linkedId = some A.id) ∨ (c = B ∨ c.linkedId = some B.id))
    (hmA : ∃ c ∈ s.contacts, matchFilter e p c = true ∧ (c = A ∨ c.linkedId = some A.id))
    (hmB : ∃ c ∈ s.contacts, matchFilter e p c = true ∧ (c = B ∨ c.linkedId = some B.id)) :
    ∃ s' r, identifyCore s e p = some (s', r) ∧
      r.primaryContactId = A.id ∧
      (∃ B' ∈ s'.contacts, B'.id = B.id ∧ B'.email = B.email ∧
        B'.phoneNumber = B.phoneNumber ∧ B'.linkPrecedence = .secondary ∧
        B'.linkedId = some A.id) ∧
      (∀ c ∈ s.contacts, c.linkedId = some B.id →
        ∃ c' ∈ s'.contacts, c'.id = c.id ∧ c'.linkedId = some A.id) := by
  obtain ⟨hnd, hpos, hids, hdel, hprim, hsec⟩ := hwf
  have hwf' : WFStore s := ⟨hnd, hpos, hids, hdel, hprim, hsec⟩
  have hABne : A ≠ B := by
    intro hABeq
    rw [hABeq] at hAB
    exact lt_irrefl _ hAB
  have hidne : A.id ≠ B.id := fun hide => hABne (wf_id_inj hwf' hA hB hide)
  have hlinked_sec : ∀ c ∈ s.contacts, ∀ x : Nat, c.linkedId = some x →
      c.linkPrecedence = .secondary := by
    intro c hc x hcl
    cases hcp : c.linkPrecedence with
    | primary =>
      rw [hprim c hc hcp] at hcl
      exact absurd hcl (by simp)
    | secondary => rfl
  have hcand_sub : ∀ x ∈ candOf s e p, x = A.id ∨ x = B.id := by
    intro x hx
    rcases mem_candidateIds.mp hx with ⟨m, hm, hcase⟩
    obtain ⟨hms, hmf⟩ := mem_identifyMatches.mp hm
    rcases hcover m hms hmf with (hmA' | hml) | (hmB' | hml)
    · subst hmA'
      rcases hcase with ⟨-, hid⟩ | ⟨hsecm, -, -⟩
      · exact Or.inl hid.symm
      · rw [hAp] at hsecm
        simp at hsecm
    · have hmsec := hlinked_sec m hms A.id hml
      rcases hcase with ⟨hprimm, -⟩ | ⟨-, hml', -⟩
      · rw [hmsec] at hprimm
        simp at hprimm
      · rw [hml] at hml'
        exact Or.inl (Option.some.inj hml').symm
    · subst hmB'
      rcases hcase with ⟨-, hid⟩ | ⟨hsecm, -, -⟩
      · exact Or.inr hid.symm
      · rw [hBp] at hsecm
        simp at hsecm
    · have hmsec := hlinked_sec m hms B.id hml
      rcases hcase with ⟨hprimm, -⟩ | ⟨-, hml', -⟩
      · rw [hmsec] at hprimm
        simp at hprimm
      · rw [hml] at hml'
        exact Or.inr (Option.some.inj hml').symm
  have hAcand : A.id ∈ candOf s e p := by
    obtain ⟨c, hc, hcf, hcc⟩ := hmA
    have hcm : c ∈ identifyMatches s e p := mem_identifyMatches.mpr ⟨hc, hcf⟩
    rcases hcc with hcA | hcl
    · subst hcA
      exact mem_candidateIds.mpr ⟨c, hcm, Or.inl ⟨hAp, rfl⟩⟩
    · exact mem_candidateIds.mpr
        ⟨c, hcm, Or.inr ⟨hlinked_sec c hc A.id hcl, hcl, (hids A hA).1⟩⟩
  have hBcand : B.id ∈ candOf s e p := by
    obtain ⟨c, hc, hcf, hcc⟩ := hmB
    have hcm : c ∈ identifyMatches s e p := mem_identifyMatches.mpr ⟨hc, hcf⟩
    rcases hcc with hcB | hcl
    · subst hcB
      exact mem_candidateIds.mpr ⟨c, hcm, Or.inl ⟨hBp, rfl⟩⟩
    · exact mem_candidateIds.mpr
        ⟨c, hcm, Or.inr ⟨hlinked_sec c hc B.id hcl, hcl, (hids B hB).1⟩⟩
  have hAprims : A ∈ primsOf s e p := mem_primsOf.mpr ⟨hA, hAcand, hdel A hA⟩
  have hBprims : B ∈ primsOf s e p := mem_primsOf.mpr ⟨hB, hBcand, hdel B hB⟩
  have hprims_sub : ∀ x ∈ primsOf s e p, x = A ∨ x = B := by
    intro x hx
    obtain ⟨hxs, hxc, -⟩ := mem_primsOf.mp hx
    rcases hcand_sub x.id hxc with h1 | h1
    · exact Or.inl (wf_id_inj hwf' hxs hA h1)
    · exact Or.inr (wf_id_inj hwf' hxs hB h1)
  have hne : identifyMatches s e p ≠ [] := by
    obtain ⟨c, hc, hcf, -⟩ := hmA
    intro hnil
    have : c ∈ identifyMatches s e p := mem_identifyMatches.mpr ⟨hc, hcf⟩
    rw [hnil] at this
    simp at this
  obtain ⟨oldest, ho⟩ := oldestPrimaryOf_isSome (primsOf_nonempty hwf' hne)
  have holdA : oldest = A := by
    rcases hprims_sub oldest (oldestPrimaryOf_mem ho) with h1 | h1
    · exact h1
    · exfalso
      have hle := oldestPrimaryOf_le ho A hAprims
      rw [h1] at hle
      exact absurd hAB (not_lt.mpr hle)
  subst holdA
  obtain ⟨fp, hfp, hfpid, hfpmem⟩ := find_fp_exists ho
  have hresult := identifyCore_of_nonempty hne ho hfp
  have hpnd := primsOf_nodup (e := e) (p := p) hwf'
  have hdmB : demotedIn oldest.id (primsOf s e p) B.id :=
    ⟨B, hBprims, rfl, fun hBA => hidne hBA.symm⟩
  refine ⟨_, _, hresult, rfl, ?_, ?_⟩
  · have hBimg := applyAll_demoted (o := oldest.id) s.now hpnd hdmB
    refine ⟨⟨B.id, B.email, B.phoneNumber, .secondary, some oldest.id, B.createdAt, s.now,
      B.deletedAt⟩, ?_, rfl, rfl, rfl, rfl, rfl⟩
    rw [← hBimg]
    exact mem_contactsAfter_of_merged (mem_mergeAll_iff.mpr ⟨B, hB, rfl⟩)
  · intro c hc hcl
    have hcsec := hlinked_sec c hc B.id hcl
    have hcnotdm := sec_not_demoted (e := e) (p := p) hwf' hc hcsec oldest.id
    have hcimg := applyAll_relinked (q := B.id) s.now hcnotdm hcl hdmB hcsec (hdel c hc)
    refine ⟨{c with linkedId := some oldest.id, updatedAt := s.now}, ?_, rfl, rfl⟩
    rw [← hcimg]
    exact mem_contactsAfter_of_merged (mem_mergeAll_iff.mpr ⟨c, hc, rfl⟩)

def c1Store : Store :=
  ⟨[⟨1, some ("george@x.com"), some ("919191"), .primary, none, 0, 0, none⟩,
    ⟨2, some ("biff@x.com"), some ("717171"), .primary, none, 1, 1, none⟩], 3, 2⟩

theorem c1_merge_symmetry_witness :
    ∃ s' r, identifyCore c1Store (some ("george@x.com")) (some ("717171")) = some (s', r) ∧
      r.primaryContactId =
        (⟨1, some ("george@x.com"), some ("919191"), .primary, none, 0, 0, none⟩ : Contact).id ∧
      (∃ B' ∈ s'.contacts,
        B'.id = (⟨2, some ("biff@x.com"), some ("717171"), .primary, none, 1, 1,
          none⟩ : Contact).id ∧
        B'.email = (⟨2, some ("biff@x.com"), some ("717171"), .primary, none, 1, 1,
          none⟩ : Contact).email ∧
        B'.phoneNumber = (⟨2, some ("biff@x.com"), some ("717171"), .primary, none, 1, 1,
          none⟩ : Contact).phoneNumber ∧
        B'.linkPrecedence = .secondary ∧
        B'.linkedId = some (⟨1, some ("george@x.com"), some ("919191"), .primary, none, 0, 0,
          none⟩ : Contact).id) ∧
      (∀ c ∈ c1Store.contacts,
        c.linkedId = some (⟨2, some ("biff@x.com"), some ("717171"), .primary, none, 1, 1,
          none⟩ : Contact).id →
        ∃ c' ∈ s'.contacts, c'.id = c.id ∧
          c'.linkedId = some (⟨1, some ("george@x.com"), some ("919191"), .primary, none, 0, 0,
            none⟩ : Contact).id) :=
  c1_merge_symmetry (by decide) (by decide) (by decide) (by decide) (by decide) (by decide)
    (by decide) (by decide) (by decide)
